import Mathlib

/-!
# knowledge-graph-rag: streaming assembler and embedding pipeline

A shallow embedding of `main.go` (`readStream`, `setupEmbedder`,
`fetchEmbeddingsForMovies`, `createEmbeddingsWorkers`, `createEmbeddingsWorker`),
`internal/pkg/utils/utils.go` and `internal/pkg/embeddings/embeddings.go`.

Conventions of the embedding:
* a Go `error` is the text of its `Error()` method; a nil error is `none`;
* `json.Unmarshal`, `fmt.Sprintf("%f", _)` and the embedding HTTP call are library or
  network code: they are parameters of the definitions that use them;
* `log.Fatal` ends the process: a function that reaches it does not return, which the
  result type records as a separate constructor;
* an `io.Writer` / `*os.File` is a record of the writes it accepted together with the
  outcome of the writes still to come.
-/

namespace KnowledgeGraphRag

/-! ## Shared data -/

/-- A Go `error`, identified with the text its `Error()` method gives. -/
structure GoError where
  msg : String
deriving DecidableEq, Repr

/-- The struct `LLMResponse` of `main.go`; `time.Time` is kept as its text. -/
structure LLMResponse where
  Model : String
  CreatedAt : String
  Response : String
  Done : Bool
  Context : List Int
  TotalDuration : Int
  LoadDuration : Int
  PromptEvalCount : Int
  PromptEvalDuration : Int
  EvalCount : Int
  EvalDuration : Int
deriving DecidableEq, Repr

/-- The struct `Chunk` of `main.go`. -/
structure Chunk where
  Model : String
  CreatedAt : String
  Response : String
  Done : Bool
deriving DecidableEq, Repr

/-- An `io.Writer`: `written` holds the byte slices of the `Write` calls that succeeded,
oldest first; `faults` is the outcome of the calls still to come (`none` succeeds,
`some e` returns `e`), and every call beyond the list succeeds. -/
structure Writer where
  written : List String
  faults : List (Option GoError)
deriving DecidableEq, Repr

/-- One call `writer.Write(p)` (for a file, `file.WriteString(p)`): the new writer and the
returned error. A failed call records nothing: the bytes a failing write may leave
behind before its error are outside the model, and no theorem below states what a
writer holds after a failed call. -/
def Writer.Write (w : Writer) (p : String) : Writer × Option GoError :=
  match w.faults with
  | [] => ({ written := w.written ++ [p], faults := [] }, none)
  | none :: rest => ({ written := w.written ++ [p], faults := rest }, none)
  | some e :: rest => ({ written := w.written, faults := rest }, some e)

/-- The writer never returns an error. -/
def Writer.NeverFails (w : Writer) : Prop := ∀ f ∈ w.faults, f = none

/-- Everything the writer accepted, as one sequence of characters. -/
def Writer.bytes (w : Writer) : List Char := (w.written.map String.toList).flatten

/-- A fresh writer that accepts every write. -/
def Writer.fresh : Writer := { written := [], faults := [] }

/-- A `*bufio.Scanner` over the response body: `lines` are the tokens `Scan` will still
deliver; `err` is the read error that ended the input (`none` for a clean end of file);
the reader met that error while `held` tokens were still buffered, so `Err()` shows it
as soon as at most `held` tokens remain. -/
structure Scanner where
  lines : List String
  err : Option GoError
  held : Nat
deriving DecidableEq, Repr

/-- The method `scanner.Err()`. -/
def Scanner.Err (s : Scanner) : Option GoError :=
  if s.lines.length ≤ s.held then s.err else none

/-! ## `readStream` -/

/-- How the `for scanner.Scan()` loop of `readStream` is left. -/
inductive LoopExit where
  /-- `log.Fatal(err)` after the first `json.Unmarshal`: the process exits. -/
  | fatal (e : GoError)
  /-- One of the `return nil, err` statements inside the loop. -/
  | ret (e : GoError)
  /-- The loop ended, by `break` or because `Scan()` gave false; `rest` are the tokens
  not yet scanned. -/
  | fell (response : Option LLMResponse) (rest : List String)
deriving DecidableEq, Repr

/-- What a call of `readStream` amounts to. -/
inductive StreamResult where
  /-- The process was ended by `log.Fatal`; nothing is returned to the caller. -/
  | exit (e : GoError)
  /-- The pair `(response, err)` returned to the caller. -/
  | ret (response : Option LLMResponse) (err : Option GoError)
deriving DecidableEq, Repr

/-- The loop of `readStream`, lines 295-315. `decodeChunk` is `json.Unmarshal` into a
`Chunk`, `decodeResponse` is `json.Unmarshal` into the `*LLMResponse`. -/
def readLoop (decodeChunk : String → Except GoError Chunk)
    (decodeResponse : String → Except GoError LLMResponse) :
    List String → Writer → String → LoopExit × Writer
  | [], writer, _ => (.fell none [], writer)
  | line :: rest, writer, answer =>
    match decodeChunk line with
    | .error e => (.fatal e, writer)
    | .ok chunk =>
      match writer.Write chunk.Response with
      | (writer1, some e) => (.ret e, writer1)
      | (writer1, none) =>
        if chunk.Done then
          match decodeResponse line with
          | .error e => (.ret e, writer1)
          | .ok response => (.fell (some { response with Response := answer }) rest, writer1)
        else
          readLoop decodeChunk decodeResponse rest writer1 (answer ++ chunk.Response)

/-- The function `readStream` of `main.go`: the result and the writer afterwards. -/
def readStream (decodeChunk : String → Except GoError Chunk)
    (decodeResponse : String → Except GoError LLMResponse)
    (scanner : Scanner) (writer : Writer) : StreamResult × Writer :=
  match readLoop decodeChunk decodeResponse scanner.lines writer "" with
  | (.fatal e, writer1) => (.exit e, writer1)
  | (.ret e, writer1) => (.ret none (some e), writer1)
  | (.fell response rest, writer1) =>
    match writer1.Write "\n" with
    | (writer2, some e) => (.ret none (some e), writer2)
    | (writer2, none) => (.ret response ({ scanner with lines := rest }).Err, writer2)

/-! ### A small wire format for worked examples

Three well-formed fragment lines, one line that is not JSON, and one terminal line whose
`context` field has the wrong type: it decodes as a `Chunk` (which has no such field) but
not as an `LLMResponse`. -/

def lineThe : String := "\x7b\"response\":\"The \",\"done\":false\x7d"
def lineCat : String := "\x7b\"response\":\"cat \",\"done\":false\x7d"
def lineSat : String := "\x7b\"response\":\"sat.\",\"done\":true,\"eval_count\":3\x7d"
def lineBad : String := "not json"
def lineSatBadContext : String := "\x7b\"response\":\"sat.\",\"done\":true,\"context\":\"x\"\x7d"

/-- The value of `json.Unmarshal` into a `Chunk` on the example lines. -/
def demoDecodeChunk (line : String) : Except GoError Chunk :=
  if line = lineThe then .ok { Model := "", CreatedAt := "", Response := "The ", Done := false }
  else if line = lineCat then .ok { Model := "", CreatedAt := "", Response := "cat ", Done := false }
  else if line = lineSat then .ok { Model := "", CreatedAt := "", Response := "sat.", Done := true }
  else if line = lineSatBadContext then
    .ok { Model := "", CreatedAt := "", Response := "sat.", Done := true }
  else .error { msg := "invalid character 'o' in literal null (expecting 'u')" }

/-- An `LLMResponse` with every field at its zero value but the three given. -/
def responseOf (text : String) (done : Bool) (evalCount : Int) : LLMResponse :=
  { Model := "", CreatedAt := "", Response := text, Done := done, Context := [],
    TotalDuration := 0, LoadDuration := 0, PromptEvalCount := 0, PromptEvalDuration := 0,
    EvalCount := evalCount, EvalDuration := 0 }

/-- The value of `json.Unmarshal` into an `LLMResponse` on the example lines. -/
def demoDecodeResponse (line : String) : Except GoError LLMResponse :=
  if line = lineThe then .ok (responseOf "The " false 0)
  else if line = lineCat then .ok (responseOf "cat " false 0)
  else if line = lineSat then .ok (responseOf "sat." true 3)
  else if line = lineSatBadContext then
    .error { msg := "json: cannot unmarshal string into Go struct field LLMResponse.context of type []int" }
  else .error { msg := "invalid character 'o' in literal null (expecting 'u')" }

/-- A scanner over the given lines whose input ended cleanly. -/
def Scanner.ofLines (lines : List String) : Scanner := { lines := lines, err := none, held := 0 }

/-! ## Configuration: `setupEmbedder` -/

/-- The struct `embeddings.Service`; `Workers` is a Go `int`. -/
structure Service where
  Model : String
  Address : String
  Workers : Int
deriving DecidableEq, Repr

/-- The constructor `embeddings.NewEmbeddings`. -/
def NewEmbeddings (model address : String) (workers : Int) : Service :=
  { Model := model, Address := address, Workers := workers }

/-- The value of `strconv.Atoi` on a 64-bit platform: an optional sign, then one or more
decimal digits; anything else is a syntax error, a value outside `int` a range error. -/
def Atoi (s : String) : Except GoError Int :=
  let body : Bool × List Char :=
    match s.toList with
    | '-' :: r => (true, r)
    | '+' :: r => (false, r)
    | r => (false, r)
  if body.2 = [] ∨ ¬ body.2.all Char.isDigit = true then
    .error { msg := "strconv.Atoi: parsing " ++ s.quote ++ ": invalid syntax" }
  else
    let n : Nat := body.2.foldl (fun a c => 10 * a + (c.toNat - 48)) 0
    let v : Int := if body.1 then -(n : Int) else (n : Int)
    if v < -(2 : Int) ^ 63 ∨ (2 : Int) ^ 63 - 1 < v then
      .error { msg := "strconv.Atoi: parsing " ++ s.quote ++ ": value out of range" }
    else .ok v

/-- A function that either returns a value or ends the process through `log.Fatal`. -/
inductive Started (α : Type) where
  | fatal (err : GoError)
  | ok (value : α)
deriving DecidableEq, Repr

/-- The function `setupEmbedder` of `main.go`; `getenv` is `os.Getenv`. -/
def setupEmbedder (getenv : String → String) : Started Service :=
  let embeddingsModel :=
    if getenv "EMBEDDINGS_MODEL" = "" then "sentence-transformers/all-MiniLM-L6-v2"
    else getenv "EMBEDDINGS_MODEL"
  let embeddingsHost :=
    if getenv "EMBEDDINGS_HOST" = "" then "http://localhost:8000"
    else getenv "EMBEDDINGS_HOST"
  let embeddingsWorkersEnv := getenv "EMBEDDINGS_WORKERS"
  let embeddingsWorkers : Int := 0
  if embeddingsWorkersEnv = "" then
    if embeddingsWorkers < 1 then
      .ok (NewEmbeddings embeddingsModel embeddingsHost 4)
    else
      .ok (NewEmbeddings embeddingsModel embeddingsHost embeddingsWorkers)
  else
    match Atoi embeddingsWorkersEnv with
    | .error err => .fatal err
    | .ok parsed => .ok (NewEmbeddings embeddingsModel embeddingsHost parsed)

/-- An environment in which only `EMBEDDINGS_WORKERS` is set. -/
def envWorkers (value : String) (name : String) : String :=
  if name = "EMBEDDINGS_WORKERS" then value else ""

/-! ## The embedding pipeline: data -/

/-- The struct `knowledgegraph.Movie`, with the fields `main.go` reads. -/
structure Movie where
  MovieID : String
  Title : String
  Plot : String
deriving DecidableEq, Repr

/-- The struct `embeddings.Embedding`; `F` stands for `float32`. -/
structure Embedding (F : Type) where
  ID : String
  Embedding : List F
deriving DecidableEq, Repr

/-- The function `strings.Join`. -/
def Join : List String → String → String
  | [], _ => ""
  | [a], _ => a
  | a :: b :: rest, sep => a ++ sep ++ Join (b :: rest) sep

/-- The function `utils.Float32SliceToString`; `fmtF` is `fmt.Sprintf("%f", v)`. -/
def Float32SliceToString {F : Type} (fmtF : F → String) (slice : List F) : String :=
  Join (slice.map fmtF) ","

/-- The struct `ErrEmbedding` of `main.go`. -/
structure ErrEmbedding where
  errors : List GoError
deriving DecidableEq, Repr

/-- The method `ErrEmbedding.Error`. -/
def ErrEmbedding.Error (e : ErrEmbedding) : String :=
  "error fetching embeddings: " ++ Join (e.errors.map GoError.msg) ", "

/-- The `error` that `fetchEmbeddingsForMovies` returns when it is not nil: the error of
`os.Create` or of the header write as it is, or an `ErrEmbedding`. -/
inductive FetchError where
  | plain (err : GoError)
  | embedding (err : ErrEmbedding)
deriving DecidableEq, Repr

/-! ## The collector loop of `fetchEmbeddingsForMovies` -/

/-- The local state of the collector loop: the artifact and `var errors []error`. -/
structure Collector where
  file : Writer
  errors : List GoError
deriving DecidableEq, Repr

/-- The branch `case embedding, ok := <-resChan` with `ok` true, lines 151-155. -/
def Collector.onResult {F : Type} (fmtF : F → String) (c : Collector)
    (embedding : Embedding F) : Collector :=
  let embeddingStr := Float32SliceToString fmtF embedding.Embedding
  match c.file.Write (embedding.ID ++ ",\"[" ++ embeddingStr ++ "]\"\n") with
  | (file1, some err) => { file := file1, errors := c.errors ++ [err] }
  | (file1, none) => { file := file1, errors := c.errors }

/-- The branch `case err, ok := <-errChan` with `ok` true, lines 157-159. -/
def Collector.onError (c : Collector) (err : GoError) : Collector :=
  { file := c.file, errors := c.errors ++ [err] }

/-- The branch `case embedding, ok := <-resChan` with `ok` false, lines 143-150: the
value the function returns. -/
def Collector.onClosed (c : Collector) : Option FetchError :=
  if c.errors.length > 0 then some (.embedding { errors := c.errors }) else none

/-- One value received by the collector's `select`. -/
inductive Received (F : Type) where
  /-- Received from `resChan`. -/
  | result (embedding : Embedding F)
  /-- Received from `errChan`. -/
  | failure (err : GoError)
deriving DecidableEq, Repr

/-- One iteration of the collector loop that receives a value. -/
def Collector.receive {F : Type} (fmtF : F → String) (c : Collector) :
    Received F → Collector
  | .result embedding => c.onResult fmtF embedding
  | .failure err => c.onError err

/-- The collector loop run over the values it receives, in arrival order. -/
def Collector.drain {F : Type} (fmtF : F → String) (c : Collector)
    (received : List (Received F)) : Collector :=
  received.foldl (Collector.receive fmtF) c

/-- The function `fetchEmbeddingsForMovies` seen from the collector: `created` is the
result of `os.Create` (an error, or the fault plan of the new, empty file), `received`
the values that arrive on `resChan` and `errChan` before `resChan` is closed. The result
is the returned error and the artifact. -/
def fetchEmbeddingsCollected {F : Type} (fmtF : F → String)
    (created : Except GoError (List (Option GoError))) (received : List (Received F)) :
    Option FetchError × Writer :=
  match created with
  | .error err => (some (.plain err), Writer.fresh)
  | .ok faults =>
    match Writer.Write { written := [], faults := faults } "movie_id,embedding\n" with
    | (file1, some err) => (some (.plain err), file1)
    | (file1, none) =>
      let c := Collector.drain fmtF { file := file1, errors := [] } received
      (c.onClosed, c.file)

/-! ## The goroutines of `createEmbeddingsWorkers` as a transition system

`jobChan`, `resChan` and `errChan` are unbuffered, so a send and its receive are one joint
step of the two goroutines involved. A state records where each goroutine stands; an
`Action` names the goroutine that moves next (and, for the embedding call, what the call
returns), so that a list of actions is one interleaving. -/

/-- Where one `createEmbeddingsWorker` goroutine stands. -/
inductive Worker (F : Type) where
  /-- Blocked in `movie, ok := <-jobChan`. -/
  | waiting
  /-- Inside `embedder.Embedding(ctx, movie.Plot)`. -/
  | calling (movie : Movie)
  /-- Blocked in `errChan <- err`. -/
  | sendErr (err : GoError)
  /-- Blocked in `resChan <- embedding`. -/
  | sendRes (embedding : Embedding F)
  /-- Returned; the deferred `wg.Done()` has run. -/
  | exited
deriving DecidableEq, Repr

/-- Where the dispatching goroutine (lines 184-197) stands. -/
inductive Dispatcher where
  /-- At the head of `for _, movie := range movies`, with these movies left. -/
  | ranging (movies : List Movie)
  /-- Blocked in `jobChan <- movie`; `rest` are the movies after it. -/
  | sending (movie : Movie) (rest : List Movie)
  /-- `close(jobChan)` done, goroutine returned. -/
  | closed
deriving DecidableEq, Repr

/-- Where the closing goroutine (lines 178-182) stands. -/
inductive Closer where
  /-- In `wg.Wait()`. -/
  | waiting
  /-- After `close(resChan)`. -/
  | closedRes
  /-- After `close(errChan)`. -/
  | closedBoth
deriving DecidableEq, Repr

/-- The state of a run of `fetchEmbeddingsForMovies` once the header is written:
the context, the goroutines started by `createEmbeddingsWorkers`, the collector's
locals, and the value returned once the collector loop is left. -/
structure Pipeline (F : Type) where
  cancelled : Bool
  dispatcher : Dispatcher
  workers : List (Worker F)
  closer : Closer
  collector : Collector
  returned : Option (Option FetchError)
deriving DecidableEq, Repr

/-- Lines 210-215 of `createEmbeddingsWorker`: what the worker does with the value of
the embedding call for `movie`. -/
def createEmbeddingsWorker {F : Type} (movie : Movie)
    (called : Except GoError (Embedding F)) : Worker F :=
  match called with
  | .error err => .sendErr err
  | .ok embedding => .sendRes { embedding with ID := movie.MovieID }

/-- The function `createEmbeddingsWorkers`: `embedder.Workers` workers (none when that
is not positive), the closing goroutine and the dispatching goroutine, next to the
collector that called it. -/
def createEmbeddingsWorkers {F : Type} (cancelled : Bool) (embedder : Service)
    (movies : List Movie) (collector : Collector) : Pipeline F :=
  { cancelled := cancelled
    dispatcher := .ranging movies
    workers := List.replicate embedder.Workers.toNat .waiting
    closer := .waiting
    collector := collector
    returned := none }

/-- The worker has returned. -/
def Worker.isExited {F : Type} : Worker F → Bool
  | .exited => true
  | _ => false

/-- One step of one goroutine. -/
inductive Action (F : Type) where
  /-- The context is cancelled. -/
  | cancel
  /-- The dispatcher runs the loop head and the `select`. -/
  | dispatch
  /-- Worker `i` receives the movie the dispatcher is sending on `jobChan`. -/
  | hand (i : Nat)
  /-- Worker `i` finds `jobChan` closed. -/
  | seeClosed (i : Nat)
  /-- The embedding call of worker `i` returns `value`. -/
  | called (i : Nat) (value : Except GoError (Embedding F))
  /-- The collector receives what worker `i` is sending on `resChan`. -/
  | recvRes (i : Nat)
  /-- The collector receives what worker `i` is sending on `errChan`. -/
  | recvErr (i : Nat)
  /-- The closing goroutine moves on: `wg.Wait()` returns and `resChan` is closed, or
  `errChan` is closed. -/
  | close
  /-- The collector finds `resChan` closed and returns. -/
  | finish
deriving Repr

/-- The step relation, as a function: `none` when the action is not enabled. -/
def Pipeline.step {F : Type} (fmtF : F → String) (s : Pipeline F) :
    Action F → Option (Pipeline F)
  | .cancel => some { s with cancelled := true }
  | .dispatch =>
    match s.dispatcher with
    | .ranging [] => some { s with dispatcher := .closed }
    | .ranging (movie :: rest) =>
      if s.cancelled then some { s with dispatcher := .closed }
      else some { s with dispatcher := .sending movie rest }
    | _ => none
  | .hand i =>
    match s.dispatcher, s.workers[i]? with
    | .sending movie rest, some .waiting =>
      some { s with dispatcher := .ranging rest, workers := s.workers.set i (.calling movie) }
    | _, _ => none
  | .seeClosed i =>
    match s.dispatcher, s.workers[i]? with
    | .closed, some .waiting => some { s with workers := s.workers.set i .exited }
    | _, _ => none
  | .called i value =>
    match s.workers[i]? with
    | some (.calling movie) =>
      some { s with workers := s.workers.set i (createEmbeddingsWorker movie value) }
    | _ => none
  | .recvRes i =>
    match s.returned, s.workers[i]? with
    | none, some (.sendRes embedding) =>
      some { s with workers := s.workers.set i .waiting
                    collector := s.collector.onResult fmtF embedding }
    | _, _ => none
  | .recvErr i =>
    match s.returned, s.workers[i]? with
    | none, some (.sendErr err) =>
      some { s with workers := s.workers.set i .waiting
                    collector := s.collector.onError err }
    | _, _ => none
  | .close =>
    match s.closer with
    | .waiting => if s.workers.all Worker.isExited then some { s with closer := .closedRes } else none
    | .closedRes => some { s with closer := .closedBoth }
    | .closedBoth => none
  | .finish =>
    match s.returned, s.closer with
    | some _, _ => none
    | none, .waiting => none
    | none, _ => some { s with returned := some s.collector.onClosed }

/-- Run a list of actions; `none` when one of them is not enabled where it stands. -/
def Pipeline.run {F : Type} (fmtF : F → String) (s : Pipeline F) :
    List (Action F) → Option (Pipeline F)
  | [] => some s
  | a :: rest =>
    match s.step fmtF a with
    | none => none
    | some s1 => s1.run fmtF rest

/-- How `fetchEmbeddingsForMovies` begins: it returns at once when `os.Create` or the
header write fails, and otherwise enters the collector loop next to the goroutines. -/
inductive FetchStart (F : Type) where
  | failed (err : GoError)
  | running (s : Pipeline F)
deriving Repr

/-- Lines 126-137 of `fetchEmbeddingsForMovies`; `created` is the result of `os.Create`
(an error, or the fault plan of the new, empty file) and `cancelled` tells whether `ctx`
is already cancelled. -/
def fetchEmbeddingsForMovies {F : Type} (created : Except GoError (List (Option GoError)))
    (cancelled : Bool) (embedder : Service) (movies : List Movie) : FetchStart F :=
  match created with
  | .error err => .failed err
  | .ok faults =>
    match Writer.Write { written := [], faults := faults } "movie_id,embedding\n" with
    | (_, some err) => .failed err
    | (file1, none) =>
      .running (createEmbeddingsWorkers cancelled embedder movies { file := file1, errors := [] })

/-- The action is a delivery of an outcome to the collector. -/
def Action.isOutcome {F : Type} : Action F → Bool
  | .recvRes _ => true
  | .recvErr _ => true
  | _ => false

/-- The action is a delivery on `resChan`. -/
def Action.isSuccess {F : Type} : Action F → Bool
  | .recvRes _ => true
  | _ => false

/-- The action is a delivery on `errChan`. -/
def Action.isFailure {F : Type} : Action F → Bool
  | .recvErr _ => true
  | _ => false

/-- The action is a movie handed to a worker on `jobChan`. -/
def Action.isHand {F : Type} : Action F → Bool
  | .hand _ => true
  | _ => false

/-- The action is the cancellation of the context. -/
def Action.isCancel {F : Type} : Action F → Bool
  | .cancel => true
  | _ => false

/-! ### Worked example: three movies, the second call times out -/

/-- A rendering of `%f` for whole numbers, enough for the examples. -/
def demoFmt (v : Nat) : String := toString v ++ ".000000"

def movieA : Movie := { MovieID := "tt0001", Title := "A", Plot := "a puppet" }
def movieB : Movie := { MovieID := "tt0002", Title := "B", Plot := "a robot" }
def movieC : Movie := { MovieID := "tt0003", Title := "C", Plot := "a whale" }

/-- The error of an embedding call that timed out. -/
def timeoutErr : GoError := { msg := "failed to call embeddings LLM: context deadline exceeded" }

/-- One worker serving three movies in turn; the call for the second one fails. -/
def demoSchedule : List (Action Nat) :=
  [ .dispatch, .hand 0, .called 0 (.ok { ID := "", Embedding := [1, 2] }), .recvRes 0,
    .dispatch, .hand 0, .called 0 (.error timeoutErr), .recvErr 0,
    .dispatch, .hand 0, .called 0 (.ok { ID := "", Embedding := [3] }), .recvRes 0,
    .dispatch, .seeClosed 0, .close, .close, .finish ]

/-! ### What the specification expects of the collector -/

/-- Texts separated by commas, in the specification's sense: the library's
`String.intercalate`, independent of the embedding of `strings.Join` and of
`Float32SliceToString`. -/
def commaSeparated (items : List String) : String := ",".intercalate items

/-- The artifact row the specification asks for a received value. For a success: the
record id, a comma, a double quote, an opening bracket, the values of the vector each
rendered by `fmtF` and separated by commas, a closing bracket, a double quote, a
newline. Nothing for a failure. -/
def artifactRow {F : Type} (fmtF : F → String) : Received F → Option String
  | .result embedding =>
    some (String.join
      [embedding.ID, ",", "\"", "[", commaSeparated (embedding.Embedding.map fmtF), "]",
       "\"", "\n"])
  | .failure _ => none

/-- The cause carried by a received failure. -/
def Received.cause {F : Type} : Received F → Option GoError
  | .result _ => none
  | .failure err => some err

/-- The received value is a success. -/
def Received.isResult {F : Type} : Received F → Bool
  | .result _ => true
  | .failure _ => false

/-- The failure causes the specification expects the run to report, in arrival order:
the cause of every received failure, and the error of every row write that failed.
`faults` is the outcome of the row writes still to come. -/
def expectedCauses {F : Type} : List (Received F) → List (Option GoError) → List GoError
  | [], _ => []
  | .failure err :: rest, faults => err :: expectedCauses rest faults
  | .result _ :: rest, [] => expectedCauses rest []
  | .result _ :: rest, none :: faults => expectedCauses rest faults
  | .result _ :: rest, some err :: faults => err :: expectedCauses rest faults

/-! ### Counting work in a pipeline state -/

/-- The movies the dispatcher has not handed to a worker yet. -/
def Dispatcher.todo : Dispatcher → Nat
  | .ranging movies => movies.length
  | .sending _ rest => rest.length + 1
  | .closed => 0

/-- One for a worker that holds a movie or its outcome. -/
def Worker.busy {F : Type} : Worker F → Nat
  | .calling _ => 1
  | .sendErr _ => 1
  | .sendRes _ => 1
  | _ => 0

/-- The movies handed to a worker whose outcome the collector has not received yet. -/
def Pipeline.inFlight {F : Type} (s : Pipeline F) : Nat := (s.workers.map Worker.busy).sum

/-- The steps the dispatcher can still take part in, weighted so that every step of the
pipeline lowers the total. -/
def Dispatcher.weight : Dispatcher → Nat
  | .ranging movies => 4 * movies.length + 1
  | .sending _ rest => 4 * rest.length + 4
  | .closed => 0

/-- The steps a worker still has to take before it has returned, given no new movie. -/
def Worker.weight {F : Type} : Worker F → Nat
  | .waiting => 1
  | .calling _ => 3
  | .sendErr _ => 2
  | .sendRes _ => 2
  | .exited => 0

/-- The steps the closing goroutine still has to take. -/
def Closer.weight : Closer → Nat
  | .waiting => 2
  | .closedRes => 1
  | .closedBoth => 0

/-- A bound on the number of steps the pipeline can still take. -/
def Pipeline.weight {F : Type} (s : Pipeline F) : Nat :=
  s.dispatcher.weight + (s.workers.map Worker.weight).sum + s.closer.weight
    + (if s.returned.isSome then 0 else 1)

/-- What holds of every state the pipeline can reach: a worker has returned only if
`jobChan` is closed; `resChan` is closed only if every worker has returned; the
collector has returned only if `resChan` is closed. -/
def Pipeline.Inv {F : Type} (s : Pipeline F) : Prop :=
  (∀ w ∈ s.workers, w.isExited = true → s.dispatcher = .closed) ∧
  (s.closer ≠ .waiting → ∀ w ∈ s.workers, w.isExited = true) ∧
  (s.returned ≠ none → s.closer ≠ .waiting)

/-- What holds of every state reached under a context cancelled from the start: the
dispatcher is not sending, no worker holds a movie or an outcome, the collector has
gathered no error, and if it has returned, it has returned nil. -/
def Pipeline.Idle {F : Type} (s : Pipeline F) : Prop :=
  s.cancelled = true ∧
  (∀ movie rest, s.dispatcher ≠ .sending movie rest) ∧
  (∀ w ∈ s.workers, w.busy = 0) ∧
  s.collector.errors = [] ∧
  (∀ r, s.returned = some r → r = none)

/-- The collector's locals once the header row is written to a file that never fails. -/
def headerWritten : Collector :=
  { file := { written := ["movie_id,embedding\n"], faults := [] }, errors := [] }

/-- The example pipeline: one worker, three movies, no cancellation. -/
def demoStart : Pipeline Nat :=
  createEmbeddingsWorkers false (NewEmbeddings "all-MiniLM-L6-v2" "http://localhost:8000" 1)
    [movieA, movieB, movieC] headerWritten

/-- The state in which `demoSchedule` leaves the example pipeline. -/
def demoEnd : Pipeline Nat :=
  { cancelled := false
    dispatcher := .closed
    workers := [.exited]
    closer := .closedBoth
    collector :=
      { file :=
          { written := ["movie_id,embedding\n", "tt0001,\"[1.000000,2.000000]\"\n",
              "tt0003,\"[3.000000]\"\n"],
            faults := [] },
        errors := [timeoutErr] }
    returned := some (some (.embedding { errors := [timeoutErr] })) }

/-- The example pipeline once its worker has taken the first movie and is inside the
embedding call. -/
def demoCalling : Pipeline Nat :=
  { cancelled := false
    dispatcher := .ranging [movieB, movieC]
    workers := [.calling movieA]
    closer := .waiting
    collector := headerWritten
    returned := none }

/-- Two workers and a context cancelled from the start: the dispatcher closes `jobChan`,
both workers return, the channels are closed and the collector returns. -/
def cancelledSchedule : List (Action Nat) :=
  [.dispatch, .seeClosed 1, .seeClosed 0, .close, .close, .finish]

/-- The state right after `createEmbeddingsWorkers` for two workers, three movies and a
cancelled context. -/
def cancelledStart : Pipeline Nat :=
  createEmbeddingsWorkers true (NewEmbeddings "all-MiniLM-L6-v2" "http://localhost:8000" 2)
    [movieA, movieB, movieC] headerWritten

/-- The state in which `cancelledSchedule` leaves `cancelledStart`. -/
def cancelledEnd : Pipeline Nat :=
  { cancelled := true
    dispatcher := .closed
    workers := [.exited, .exited]
    closer := .closedBoth
    collector := headerWritten
    returned := some none }

/-- The value the collector receives in a step, if the step is a delivery. -/
def Pipeline.delivery {F : Type} (s : Pipeline F) : Action F → Option (Received F)
  | .recvRes i =>
    match s.workers[i]? with
    | some (.sendRes embedding) => some (.result embedding)
    | _ => none
  | .recvErr i =>
    match s.workers[i]? with
    | some (.sendErr err) => some (.failure err)
    | _ => none
  | _ => none

/-- The values the collector receives along a run, in arrival order. -/
def Pipeline.received {F : Type} (fmtF : F → String) :
    Pipeline F → List (Action F) → List (Received F)
  | _, [] => []
  | s, a :: rest =>
    match s.step fmtF a with
    | none => []
    | some s1 => (s.delivery a).toList ++ s1.received fmtF rest

/-! ## The ollama client: the URL that `call` posts to -/

/-- The struct `ollama` of `internal/pkg/ollama/ollama.go`. -/
structure ollama where
  Model : String
  Address : String
deriving DecidableEq, Repr

/-- The constructor `ollama.NewOllama`. -/
def NewOllama (model address : String) : ollama :=
  { Model := model, Address := address }

/-- The function `setupLLM` of `main.go`; `getenv` is `os.Getenv`. -/
def setupLLM (getenv : String → String) : ollama :=
  let model := if getenv "LLM_MODEL" = "" then "llama2" else getenv "LLM_MODEL"
  let host := if getenv "LLM_HOST" = "" then "http://localhost:11434" else getenv "LLM_HOST"
  NewOllama model host

/-- How `call` proceeds up to `http.Post`. -/
inductive CallResult where
  /-- The request could not be marshalled: `return nil, err`. -/
  | failed (err : GoError)
  /-- An index expression was out of range: run-time panic. -/
  | outOfRange
  /-- The request `data` is posted to `urlstr`. -/
  | post (urlstr : String) (data : String)
deriving DecidableEq, Repr

/-- The method `call` of `ollama.go`, lines 35-60; `marshalled` is the value of
`r.json()`. The first operand of `||` indexes the last byte of the address, the second,
evaluated only when the first is false, the first byte of the endpoint; '/' is a single
byte that is no part of another character, so bytes and characters agree here. -/
def ollama.call (g : ollama) (marshalled : Except GoError String) (endpoint : String) :
    CallResult :=
  match marshalled with
  | .error err => .failed err
  | .ok data =>
    match g.Address.toList.getLast? with
    | none => .outOfRange
    | some c =>
      if c = '/' then .post (g.Address ++ endpoint) data
      else
        match endpoint.toList.head? with
        | none => .outOfRange
        | some d =>
          if d = '/' then .post (g.Address ++ endpoint) data
          else .post (g.Address ++ "/" ++ endpoint) data

/-- The method `GenerateStream`, up to the call: the endpoint is "/api/generate". -/
def ollama.GenerateStream (g : ollama) (marshalled : Except GoError String) : CallResult :=
  g.call marshalled "/api/generate"

/-- The method `Generate`, up to the call: the endpoint is "/api/generate". -/
def ollama.Generate (g : ollama) (marshalled : Except GoError String) : CallResult :=
  g.call marshalled "/api/generate"

/-- The method `Embedding` of the ollama client, up to the call: the endpoint is
"api/embeddings". -/
def ollama.Embedding (g : ollama) (marshalled : Except GoError String) : CallResult :=
  g.call marshalled "api/embeddings"

/-- The characters of an address without its trailing '/', if it has one. -/
def dropTrailingSlash (s : List Char) : List Char :=
  if s.getLast? = some '/' then s.dropLast else s

/-- The characters of an endpoint without its leading '/', if it has one. -/
def dropLeadingSlash : List Char → List Char
  | '/' :: r => r
  | r => r

/-- The URL the specification asks for: the address without its trailing '/', then one
'/', then the endpoint without its leading '/'. -/
def joinedURL (address endpoint : String) : String :=
  String.mk (dropTrailingSlash address.toList ++ '/' :: dropLeadingSlash endpoint.toList)

/-- An environment in which only `LLM_HOST` is set. -/
def envHost (value : String) (name : String) : String :=
  if name = "LLM_HOST" then value else ""

/-! ## Theorems: the writer -/

theorem Writer.write_of_neverFails (w : Writer) (h : w.NeverFails) (p : String) :
    ∃ w1 : Writer, w.Write p = (w1, none) ∧ w1.written = w.written ++ [p] ∧ w1.NeverFails := by
  obtain ⟨written, faults⟩ := w
  cases faults with
  | nil => exact ⟨_, rfl, rfl, by intro f hf; simp at hf⟩
  | cons f rest =>
    have hf : f = none := h f (by simp)
    subst hf
    refine ⟨_, rfl, rfl, ?_⟩
    intro g hg
    exact h g (by simp only [List.mem_cons]; exact Or.inr hg)

theorem Writer.fresh_neverFails : Writer.fresh.NeverFails := by
  intro f hf
  simp [Writer.fresh] at hf

/-! ## Theorems: `readStream` -/

/-- With a sink that never fails and terminal lines that decode as an `LLMResponse`, the
loop of `readStream` is left by `log.Fatal` or at its end, never by a `return`; the sink
still never fails and has only grown. -/
theorem readLoop_exits (decodeChunk : String → Except GoError Chunk)
    (decodeResponse : String → Except GoError LLMResponse) (lines : List String) :
    ∀ (w : Writer) (answer : String), w.NeverFails →
      (∀ line ∈ lines, ∀ c, decodeChunk line = .ok c → c.Done = true →
        ∃ r, decodeResponse line = .ok r) →
      ∃ w1 : Writer, w1.NeverFails ∧
        ((∃ e, readLoop decodeChunk decodeResponse lines w answer = (.fatal e, w1)) ∨
         (∃ resp rest, readLoop decodeChunk decodeResponse lines w answer
            = (.fell resp rest, w1))) := by
  induction lines with
  | nil =>
    intro w answer hw _
    exact ⟨w, hw, Or.inr ⟨none, [], rfl⟩⟩
  | cons line rest ih =>
    intro w answer hw hdec
    cases hc : decodeChunk line with
    | error e => exact ⟨w, hw, Or.inl ⟨e, by simp [readLoop, hc]⟩⟩
    | ok chunk =>
      obtain ⟨w1, hwr, -, hw1⟩ := w.write_of_neverFails hw chunk.Response
      by_cases hd : chunk.Done = true
      · obtain ⟨r, hr⟩ := hdec line (by simp) chunk hc hd
        exact ⟨w1, hw1, Or.inr ⟨some { r with Response := answer }, rest,
          by simp [readLoop, hc, hwr, hd, hr]⟩⟩
      · obtain ⟨w2, hw2, h2⟩ := ih w1 (answer ++ chunk.Response) hw1
          (fun l hl => hdec l (by simp [hl]))
        refine ⟨w2, hw2, ?_⟩
        simpa [readLoop, hc, hwr, hd] using h2

/-- The loop of `readStream` on a stream whose first terminal line is `last`: every
fragment text up to and including the terminal one is written to the sink, in order, one
write each, while the response gets the texts of the fragments before the terminal one
only. -/
theorem readLoop_terminal (decodeChunk : String → Except GoError Chunk)
    (decodeResponse : String → Except GoError LLMResponse)
    (last : String) (final : Chunk) (full : LLMResponse) (rest : List String)
    (hlast : decodeChunk last = .ok final) (hdone : final.Done = true)
    (hfull : decodeResponse last = .ok full)
    (lines : List String) (chunks : List Chunk)
    (hlines : List.Forall₂ (fun l c => decodeChunk l = .ok c ∧ c.Done = false) lines chunks) :
    ∀ (w : Writer) (answer : String), w.NeverFails →
      ∃ w1 : Writer, w1.NeverFails ∧
        w1.written = w.written ++ chunks.map Chunk.Response ++ [final.Response] ∧
        readLoop decodeChunk decodeResponse (lines ++ last :: rest) w answer
          = (.fell (some { full with
                Response := (chunks.map Chunk.Response).foldl (fun a b => a ++ b) answer })
              rest, w1) := by
  induction hlines with
  | nil =>
    intro w answer hw
    obtain ⟨w1, hwr, hwritten, hw1⟩ := w.write_of_neverFails hw final.Response
    exact ⟨w1, hw1, by simp [hwritten], by simp [readLoop, hlast, hwr, hdone, hfull]⟩
  | @cons l c ls cs hc _ ih =>
    intro w answer hw
    obtain ⟨w1, hwr, hwritten, hw1⟩ := w.write_of_neverFails hw c.Response
    obtain ⟨w2, hw2, hwritten2, h2⟩ := ih w1 (answer ++ c.Response) hw1
    refine ⟨w2, hw2, by simp [hwritten2, hwritten], ?_⟩
    simp [readLoop, hc.1, hwr, hc.2, h2]

/-- C1 (evaluation at the failing input): for the fragments "The ", "cat ", "sat." with
the third one terminal, `readStream` forwards all three texts to the sink but returns
the full text "The cat ": the text of the terminal fragment is missing from it. -/
theorem readStream_drops_terminal_text :
    readStream demoDecodeChunk demoDecodeResponse
        (Scanner.ofLines [lineThe, lineCat, lineSat]) Writer.fresh
      = (.ret (some (responseOf "The cat " true 3)) none,
         { written := ["The ", "cat ", "sat.", "\n"], faults := [] }) := by
  decide

/-- C2 (counterexample): a stream that ends cleanly after two non-terminal fragments, and
the empty stream, both make `readStream` return a nil error (with a nil answer). -/
theorem readStream_unterminated_nil_error :
    (readStream demoDecodeChunk demoDecodeResponse
        (Scanner.ofLines [lineThe, lineCat]) Writer.fresh).1 = .ret none none ∧
    (readStream demoDecodeChunk demoDecodeResponse
        (Scanner.ofLines []) Writer.fresh).1 = .ret none none := by
  decide

/-- The loop of `readStream` over non-terminal fragments only runs to the end of the
input without a response. -/
theorem readLoop_no_terminal (decodeChunk : String → Except GoError Chunk)
    (decodeResponse : String → Except GoError LLMResponse) (lines : List String) :
    ∀ (w : Writer) (answer : String), w.NeverFails →
      (∀ line ∈ lines, ∃ c, decodeChunk line = .ok c ∧ c.Done = false) →
      ∃ w1 : Writer, w1.NeverFails ∧
        readLoop decodeChunk decodeResponse lines w answer = (.fell none [], w1) := by
  induction lines with
  | nil =>
    intro w answer hw _
    exact ⟨w, hw, rfl⟩
  | cons line rest ih =>
    intro w answer hw hdec
    obtain ⟨chunk, hc, hd⟩ := hdec line (by simp)
    obtain ⟨w1, hwr, -, hw1⟩ := w.write_of_neverFails hw chunk.Response
    obtain ⟨w2, hw2, h2⟩ := ih w1 (answer ++ chunk.Response) hw1
      (fun l hl => hdec l (by simp [hl]))
    exact ⟨w2, hw2, by simp [readLoop, hc, hwr, hd, h2]⟩

/-- C2 (amended): for every fragment stream whose lines all decode as non-terminal
fragments, with a sink that never fails, `readStream` returns a nil answer together
with exactly the scanner's own read error: nil when the input ended cleanly. -/
theorem readStream_unterminated (decodeChunk : String → Except GoError Chunk)
    (decodeResponse : String → Except GoError LLMResponse)
    (scanner : Scanner) (writer : Writer) (hw : writer.NeverFails)
    (hlines : ∀ line ∈ scanner.lines, ∃ c, decodeChunk line = .ok c ∧ c.Done = false) :
    (readStream decodeChunk decodeResponse scanner writer).1 = .ret none scanner.err := by
  obtain ⟨w1, hw1, h1⟩ :=
    readLoop_no_terminal decodeChunk decodeResponse scanner.lines writer "" hw hlines
  obtain ⟨w2, hwr, -, -⟩ := w1.write_of_neverFails hw1 "\n"
  simp [readStream, h1, hwr, Scanner.Err]

theorem readStream_unterminated_witness :
    (readStream demoDecodeChunk demoDecodeResponse
        (Scanner.ofLines [lineThe, lineCat]) Writer.fresh).1
      = .ret none (Scanner.ofLines [lineThe, lineCat]).err :=
  readStream_unterminated demoDecodeChunk demoDecodeResponse
    (Scanner.ofLines [lineThe, lineCat]) Writer.fresh Writer.fresh_neverFails
    (by
      intro line hl
      simp only [Scanner.ofLines, List.mem_cons, List.mem_singleton, List.not_mem_nil,
        or_false] at hl
      rcases hl with rfl | rfl
      · exact ⟨⟨"", "", "The ", false⟩, rfl, rfl⟩
      · exact ⟨⟨"", "", "cat ", false⟩, rfl, rfl⟩)

/-- C7 (evaluation at the failing input): when the second line is not JSON,
`readStream` ends the process through `log.Fatal` instead of returning an error; the
sink has received the text of the one fragment before it. -/
theorem readStream_malformed_is_fatal :
    readStream demoDecodeChunk demoDecodeResponse
        (Scanner.ofLines [lineThe, lineBad, lineSat]) Writer.fresh
      = (.exit { msg := "invalid character 'o' in literal null (expecting 'u')" },
         { written := ["The "], faults := [] }) := by
  decide

/-- C9 (counterexample): a terminal line that decodes as a `Chunk` but not as an
`LLMResponse` makes `readStream` return, with a sink that never failed, right after the
fragment text: the last byte written is '.', not the newline. -/
theorem readStream_no_separator :
    readStream demoDecodeChunk demoDecodeResponse
        (Scanner.ofLines [lineSatBadContext]) Writer.fresh
      = (.ret none (some { msg := "json: cannot unmarshal string into Go struct field LLMResponse.context of type []int" }),
         { written := ["sat."], faults := [] }) ∧
    (readStream demoDecodeChunk demoDecodeResponse
        (Scanner.ofLines [lineSatBadContext]) Writer.fresh).2.bytes.getLast? = some '.' := by
  decide

/-- C9 (amended): for every fragment stream in which each line that decodes as a
terminal fragment also decodes as an `LLMResponse`, whenever `readStream` returns and
the sink never fails, the last write to the sink is the newline separator, and so is
the last byte. -/
theorem readStream_ends_with_newline (decodeChunk : String → Except GoError Chunk)
    (decodeResponse : String → Except GoError LLMResponse)
    (scanner : Scanner) (writer : Writer) (hw : writer.NeverFails)
    (hterm : ∀ line ∈ scanner.lines, ∀ c, decodeChunk line = .ok c → c.Done = true →
      ∃ r, decodeResponse line = .ok r)
    (response : Option LLMResponse) (err : Option GoError) (writer1 : Writer)
    (hret : readStream decodeChunk decodeResponse scanner writer
      = (.ret response err, writer1)) :
    writer1.written.getLast? = some "\n" ∧ writer1.bytes.getLast? = some '\n' := by
  obtain ⟨w1, hw1, h1⟩ :=
    readLoop_exits decodeChunk decodeResponse scanner.lines writer "" hw hterm
  obtain ⟨w2, hwr, hwritten, -⟩ := w1.write_of_neverFails hw1 "\n"
  rcases h1 with ⟨e, h1⟩ | ⟨resp, rest, h1⟩
  · simp [readStream, h1] at hret
  · simp only [readStream, h1, hwr] at hret
    have hw2 : writer1 = w2 := (Prod.mk.inj hret).2.symm
    subst hw2
    constructor
    · simp [hwritten]
    · simp [Writer.bytes, hwritten]

theorem readStream_ends_with_newline_witness :
    (readStream demoDecodeChunk demoDecodeResponse
        (Scanner.ofLines [lineThe, lineCat, lineSat]) Writer.fresh).2.written.getLast?
        = some "\n" ∧
    (readStream demoDecodeChunk demoDecodeResponse
        (Scanner.ofLines [lineThe, lineCat, lineSat]) Writer.fresh).2.bytes.getLast?
        = some '\n' :=
  readStream_ends_with_newline demoDecodeChunk demoDecodeResponse
    (Scanner.ofLines [lineThe, lineCat, lineSat]) Writer.fresh Writer.fresh_neverFails
    (by
      intro line hl c _ _
      simp only [Scanner.ofLines, List.mem_cons, List.mem_singleton, List.not_mem_nil,
        or_false] at hl
      rcases hl with rfl | rfl | rfl
      · exact ⟨responseOf "The " false 0, rfl⟩
      · exact ⟨responseOf "cat " false 0, rfl⟩
      · exact ⟨responseOf "sat." true 3, rfl⟩)
    (some (responseOf "The cat " true 3)) none _ (by decide)

/-! ## Theorems: the collector -/

theorem Collector.drain_cons {F : Type} (fmtF : F → String) (c : Collector) (r : Received F)
    (rest : List (Received F)) :
    c.drain fmtF (r :: rest) = (c.receive fmtF r).drain fmtF rest := rfl

/-- Text put in front of the first string joined by `strings.Join` comes out in front of
the result. -/
theorem Join_append_head (sep p b : String) (rest : List String) :
    Join ((p ++ b) :: rest) sep = p ++ Join (b :: rest) sep := by
  cases rest with
  | nil => rfl
  | cons c cs => simp [Join, String.append_assoc]

/-- The accumulating loop of the library's `String.intercalate` computes what
`strings.Join` computes. -/
theorem intercalate_go_eq_Join (sep : String) (rest : List String) :
    ∀ acc : String, String.intercalate.go acc sep rest = Join (acc :: rest) sep := by
  induction rest with
  | nil => intro acc; rfl
  | cons b bs ih =>
    intro acc
    rw [String.intercalate.go, ih, Join_append_head]
    simp [Join, String.append_assoc]

/-- The embedding of `strings.Join` agrees with the library's `String.intercalate`. -/
theorem Join_eq_intercalate (sep : String) (items : List String) :
    Join items sep = sep.intercalate items := by
  cases items with
  | nil => rfl
  | cons a rest => exact (intercalate_go_eq_Join sep rest a).symm

/-- The function `Float32SliceToString` renders a vector as its values, each rendered by
`fmtF`, separated by commas. -/
theorem Float32SliceToString_eq_commaSeparated {F : Type} (fmtF : F → String)
    (slice : List F) :
    Float32SliceToString fmtF slice = commaSeparated (slice.map fmtF) := by
  simp only [Float32SliceToString, commaSeparated, Join_eq_intercalate]

/-- The row that `Collector.onResult` writes for an embedding is the row the
specification asks for. -/
theorem written_row_eq_artifactRow {F : Type} (fmtF : F → String)
    (embedding : Embedding F) :
    some (embedding.ID ++ ",\"[" ++ Float32SliceToString fmtF embedding.Embedding ++ "]\"\n")
      = artifactRow fmtF (.result embedding) := by
  have h1 : (",\"[" : String) = "," ++ ("\"" ++ "[") := by decide
  have h2 : ("]\"\n" : String) = "]" ++ ("\"" ++ "\n") := by decide
  simp only [artifactRow, Float32SliceToString_eq_commaSeparated, String.join, List.foldl,
    h1, h2, String.append_assoc, String.empty_append]

/-- With a file that never fails, draining appends one row per success and one error per
failure, in arrival order. -/
theorem Collector.drain_of_neverFails {F : Type} (fmtF : F → String)
    (received : List (Received F)) :
    ∀ c : Collector, c.file.NeverFails →
      (c.drain fmtF received).file.written
          = c.file.written ++ received.filterMap (artifactRow fmtF) ∧
      (c.drain fmtF received).errors = c.errors ++ received.filterMap Received.cause ∧
      (c.drain fmtF received).file.NeverFails := by
  induction received with
  | nil => intro c hc; simp [Collector.drain, hc]
  | cons r rest ih =>
    intro c hc
    rw [Collector.drain_cons]
    cases r with
    | result embedding =>
      obtain ⟨f1, hw, hwritten, hf1⟩ := c.file.write_of_neverFails hc
        (embedding.ID ++ ",\"[" ++ Float32SliceToString fmtF embedding.Embedding ++ "]\"\n")
      have hstep : c.receive fmtF (.result embedding) = { file := f1, errors := c.errors } := by
        simp [Collector.receive, Collector.onResult, hw]
      obtain ⟨h1, h2, h3⟩ := ih { file := f1, errors := c.errors } hf1
      rw [hstep]
      refine ⟨?_, ?_, h3⟩
      · rw [h1, List.filterMap_cons, ← written_row_eq_artifactRow]
        simp [hwritten]
      · rw [h2]; simp [Received.cause]
    | failure err =>
      have hstep : c.receive fmtF (.failure err)
          = { file := c.file, errors := c.errors ++ [err] } := rfl
      obtain ⟨h1, h2, h3⟩ := ih { file := c.file, errors := c.errors ++ [err] } hc
      rw [hstep]
      refine ⟨?_, ?_, h3⟩
      · rw [h1]; simp [artifactRow]
      · rw [h2]; simp [Received.cause]

/-- C4: for every sequence of values received by the collector, with a file whose
writes all succeed, the artifact holds the header row "movie_id,embedding" followed by
exactly one row per success, in arrival order, each made of the record id, a comma,
and between double quotes and square brackets the values of the vector, each rendered
by `%f` and separated by commas; a failure contributes no row. -/
theorem fetchEmbeddings_artifact {F : Type} (fmtF : F → String)
    (faults : List (Option GoError)) (received : List (Received F))
    (hfile : ∀ f ∈ faults, f = none) :
    (fetchEmbeddingsCollected fmtF (.ok faults) received).2.written
      = "movie_id,embedding\n" :: received.filterMap (artifactRow fmtF) := by
  obtain ⟨f1, hw, hwritten, hf1⟩ :=
    Writer.write_of_neverFails { written := [], faults := faults } hfile "movie_id,embedding\n"
  obtain ⟨h1, -, -⟩ :=
    Collector.drain_of_neverFails fmtF received { file := f1, errors := [] } hf1
  simp only [fetchEmbeddingsCollected, hw, h1, hwritten]
  simp

theorem fetchEmbeddings_artifact_witness :
    (fetchEmbeddingsCollected demoFmt (.ok [none, none])
        [.result { ID := "tt0001", Embedding := [1, 2] }, .failure timeoutErr,
         .result { ID := "tt0003", Embedding := [3] }, .result { ID := "tt0004", Embedding := [] }]).2.written
      = ["movie_id,embedding\n", "tt0001,\"[1.000000,2.000000]\"\n",
         "tt0003,\"[3.000000]\"\n", "tt0004,\"[]\"\n"] :=
  (fetchEmbeddings_artifact demoFmt [none, none]
    [.result { ID := "tt0001", Embedding := [1, 2] }, .failure timeoutErr,
     .result { ID := "tt0003", Embedding := [3] }, .result { ID := "tt0004", Embedding := [] }]
    (by decide)).trans (by decide)

/-- Draining with any file: the errors gathered are the expected causes, and every
success costs one write, so a failure stops nothing. -/
theorem Collector.drain_errors {F : Type} (fmtF : F → String)
    (received : List (Received F)) :
    ∀ c : Collector,
      (c.drain fmtF received).errors = c.errors ++ expectedCauses received c.file.faults ∧
      (c.drain fmtF received).file.faults
        = c.file.faults.drop (received.countP Received.isResult) := by
  induction received with
  | nil => intro c; simp [Collector.drain, expectedCauses]
  | cons r rest ih =>
    intro c
    rw [Collector.drain_cons]
    obtain ⟨⟨written, faults⟩, errors⟩ := c
    cases r with
    | failure err =>
      obtain ⟨h1, h2⟩ := ih { file := ⟨written, faults⟩, errors := errors ++ [err] }
      have hstep : Collector.receive fmtF ⟨⟨written, faults⟩, errors⟩ (.failure err)
          = { file := ⟨written, faults⟩, errors := errors ++ [err] } := rfl
      rw [hstep, h1, h2]
      simp [expectedCauses, Received.isResult]
    | result embedding =>
      cases faults with
      | nil =>
        obtain ⟨h1, h2⟩ := ih (Collector.receive fmtF ⟨⟨written, []⟩, errors⟩ (.result embedding))
        rw [h1, h2]
        simp [expectedCauses, Collector.receive, Collector.onResult, Writer.Write]
      | cons f faults =>
        obtain ⟨h1, h2⟩ :=
          ih (Collector.receive fmtF ⟨⟨written, f :: faults⟩, errors⟩ (.result embedding))
        rw [h1, h2]
        cases f with
        | none =>
          simp [expectedCauses, Collector.receive, Collector.onResult, Writer.Write,
            Received.isResult]
        | some err =>
          simp [expectedCauses, Collector.receive, Collector.onResult, Writer.Write,
            Received.isResult]

/-- No cause is expected exactly when no failure was received and no row write failed. -/
theorem expectedCauses_eq_nil {F : Type} (received : List (Received F)) :
    ∀ faults : List (Option GoError),
      expectedCauses received faults = [] ↔
        (∀ r ∈ received, r.isResult = true) ∧
        (∀ f ∈ faults.take (received.countP Received.isResult), f = none) := by
  induction received with
  | nil => intro faults; simp [expectedCauses]
  | cons r rest ih =>
    intro faults
    cases r with
    | failure err => simp [expectedCauses, Received.isResult]
    | result embedding =>
      cases faults with
      | nil => simpa [expectedCauses, Received.isResult] using ih []
      | cons f faults =>
        cases f with
        | none => simpa [expectedCauses, Received.isResult] using ih faults
        | some err => simp [expectedCauses, Received.isResult]

/-- Every received failure cause is among the expected causes, in arrival order. -/
theorem expectedCauses_sublist {F : Type} (received : List (Received F)) :
    ∀ faults : List (Option GoError),
      List.Sublist (received.filterMap Received.cause) (expectedCauses received faults) := by
  induction received with
  | nil => intro faults; simp [expectedCauses]
  | cons r rest ih =>
    intro faults
    cases r with
    | failure err => simpa [expectedCauses, Received.cause] using ih faults
    | result embedding =>
      cases faults with
      | nil => simpa [expectedCauses, Received.cause] using ih []
      | cons f faults =>
        cases f with
        | none => simpa [expectedCauses, Received.cause] using ih faults
        | some err =>
          simpa [expectedCauses, Received.cause] using (ih faults).cons err

/-- Each string joined by `strings.Join` is a substring of the result. -/
theorem Join_contains (sep : String) (l : List String) :
    ∀ a ∈ l, ∃ pre post : String, Join l sep = pre ++ a ++ post := by
  induction l with
  | nil => intro a ha; simp at ha
  | cons x rest ih =>
    intro a ha
    cases rest with
    | nil =>
      have hax : a = x := by simpa using ha
      subst hax
      exact ⟨"", "", by simp [Join]⟩
    | cons y rest =>
      rcases List.mem_cons.mp ha with hax | hmem
      · subst hax
        exact ⟨"", sep ++ Join (y :: rest) sep, by simp [Join, String.append_assoc]⟩
      · obtain ⟨pre, post, h⟩ := ih a hmem
        exact ⟨x ++ sep ++ pre, post, by simp [Join, h, String.append_assoc]⟩

/-- Once the header is written, the collector returns nil when no cause is expected and
an `ErrEmbedding` holding the expected causes otherwise; every success was written or
attempted. -/
theorem fetchEmbeddingsCollected_eq {F : Type} (fmtF : F → String)
    (faults : List (Option GoError)) (received : List (Received F))
    (hheader : (Writer.Write { written := [], faults := faults } "movie_id,embedding\n").2
      = none) :
    (fetchEmbeddingsCollected fmtF (.ok faults) received).1
      = (if (expectedCauses received faults.tail).length > 0
          then some (.embedding { errors := expectedCauses received faults.tail })
          else none) ∧
    (fetchEmbeddingsCollected fmtF (.ok faults) received).2.faults
      = faults.tail.drop (received.countP Received.isResult) := by
  have key : ∀ file1 : Writer, file1.faults = faults.tail →
      Writer.Write { written := [], faults := faults } "movie_id,embedding\n" = (file1, none) →
      (fetchEmbeddingsCollected fmtF (.ok faults) received).1
        = (if (expectedCauses received faults.tail).length > 0
            then some (.embedding { errors := expectedCauses received faults.tail })
            else none) ∧
      (fetchEmbeddingsCollected fmtF (.ok faults) received).2.faults
        = faults.tail.drop (received.countP Received.isResult) := by
    intro file1 hf hw
    obtain ⟨h1, h2⟩ := Collector.drain_errors fmtF received { file := file1, errors := [] }
    simp only [fetchEmbeddingsCollected, hw, Collector.onClosed, h1, h2, hf]
    simp
  cases faults with
  | nil => exact key _ rfl rfl
  | cons f rest =>
    cases f with
    | none => exact key _ rfl rfl
    | some err => simp [Writer.Write] at hheader

/-- C5: for every sequence of values drained by the collector (the header being
written), the run returns nil exactly when no failure was received and no row write
failed, the empty sequence included; otherwise it returns an `ErrEmbedding` holding the
cause of every received failure and of every failed row write, in arrival order, and its
`Error()` message contains the message of each; and every success costs one write,
whatever failed before it. -/
theorem fetchEmbeddings_result {F : Type} (fmtF : F → String)
    (faults : List (Option GoError)) (received : List (Received F))
    (hheader : (Writer.Write { written := [], faults := faults } "movie_id,embedding\n").2
      = none) :
    ((fetchEmbeddingsCollected fmtF (.ok faults) received).1 = none ↔
      (∀ r ∈ received, r.isResult = true) ∧
      (∀ f ∈ faults.tail.take (received.countP Received.isResult), f = none)) ∧
    ((fetchEmbeddingsCollected fmtF (.ok faults) received).1 ≠ none →
      (fetchEmbeddingsCollected fmtF (.ok faults) received).1
        = some (.embedding { errors := expectedCauses received faults.tail })) ∧
    List.Sublist (received.filterMap Received.cause) (expectedCauses received faults.tail) ∧
    (∀ e ∈ expectedCauses received faults.tail, ∃ pre post : String,
      ErrEmbedding.Error { errors := expectedCauses received faults.tail }
        = pre ++ e.msg ++ post) ∧
    (fetchEmbeddingsCollected fmtF (.ok faults) received).2.faults
      = faults.tail.drop (received.countP Received.isResult) := by
  obtain ⟨hret, hfaults⟩ := fetchEmbeddingsCollected_eq fmtF faults received hheader
  refine ⟨?_, ?_, expectedCauses_sublist received faults.tail, ?_, hfaults⟩
  · rw [hret, ← expectedCauses_eq_nil received faults.tail]
    cases expectedCauses received faults.tail <;> simp
  · intro hne
    rw [hret] at hne ⊢
    cases h : expectedCauses received faults.tail with
    | nil => simp [h] at hne
    | cons e rest => simp
  · intro e he
    obtain ⟨pre, post, h⟩ :=
      Join_contains ", " ((expectedCauses received faults.tail).map GoError.msg) e.msg
        (List.mem_map_of_mem GoError.msg he)
    exact ⟨"error fetching embeddings: " ++ pre, post,
      by simp [ErrEmbedding.Error, h, String.append_assoc]⟩

theorem fetchEmbeddings_result_witness :
    ((fetchEmbeddingsCollected demoFmt (.ok [none, none, some { msg := "disk full" }])
        [.result { ID := "tt0001", Embedding := [1, 2] }, .failure timeoutErr,
         .result { ID := "tt0003", Embedding := [3] }]).1 = none ↔
      (∀ r ∈ ([.result { ID := "tt0001", Embedding := [1, 2] }, .failure timeoutErr,
          .result { ID := "tt0003", Embedding := [3] }] : List (Received Nat)),
        r.isResult = true) ∧
      (∀ f ∈ ([none, none, some { msg := "disk full" }] : List (Option GoError)).tail.take
          (List.countP Received.isResult
            ([.result { ID := "tt0001", Embedding := [1, 2] }, .failure timeoutErr,
              .result { ID := "tt0003", Embedding := [3] }] : List (Received Nat))),
        f = none)) ∧
    (fetchEmbeddingsCollected demoFmt (.ok [none, none, some { msg := "disk full" }])
        [.result { ID := "tt0001", Embedding := [1, 2] }, .failure timeoutErr,
         .result { ID := "tt0003", Embedding := [3] }]).1
      = some (.embedding { errors := [timeoutErr, { msg := "disk full" }] }) :=
  ⟨(fetchEmbeddings_result demoFmt [none, none, some { msg := "disk full" }]
      [.result { ID := "tt0001", Embedding := [1, 2] }, .failure timeoutErr,
       .result { ID := "tt0003", Embedding := [3] }] rfl).1,
   by decide⟩

/-- C8 (evaluation at the failing input): with EMBEDDINGS_WORKERS set to "0" or "-3",
`setupEmbedder` builds a `Service` with that worker count (unset gives 4); with zero
workers the closing goroutine closes the channels at once, the collector returns nil
over the header alone, and the dispatcher still holds all three movies. -/
theorem setupEmbedder_accepts_nonpositive :
    setupEmbedder (envWorkers "0")
      = .ok (NewEmbeddings "sentence-transformers/all-MiniLM-L6-v2" "http://localhost:8000" 0) ∧
    setupEmbedder (envWorkers "-3")
      = .ok (NewEmbeddings "sentence-transformers/all-MiniLM-L6-v2" "http://localhost:8000" (-3)) ∧
    setupEmbedder (envWorkers "")
      = .ok (NewEmbeddings "sentence-transformers/all-MiniLM-L6-v2" "http://localhost:8000" 4) ∧
    (Pipeline.run demoFmt
        (createEmbeddingsWorkers false
          (NewEmbeddings "sentence-transformers/all-MiniLM-L6-v2" "http://localhost:8000" 0)
          [movieA, movieB, movieC]
          { file := { written := ["movie_id,embedding\n"], faults := [] }, errors := [] })
        [.close, .close, .finish]).map
        (fun s => (s.returned, s.dispatcher, s.collector.file.written))
      = some (some none, .ranging [movieA, movieB, movieC], ["movie_id,embedding\n"]) := by
  decide

/-! ## Theorems: the steps of the pipeline, one action at a time -/

section Steps

variable {F : Type} (fmtF : F → String)

/-- Case analysis on an enabled step: a property of steps holds for every enabled step as
soon as it holds for each line of `Pipeline.step` that yields a state. -/
theorem Pipeline.step_elim (P : Pipeline F → Action F → Pipeline F → Prop)
    (cancel : ∀ s : Pipeline F, P s .cancel { s with cancelled := true })
    (rangeEnd : ∀ s : Pipeline F, s.dispatcher = .ranging [] →
      P s .dispatch { s with dispatcher := .closed })
    (rangeCancelled : ∀ (s : Pipeline F) movie rest, s.dispatcher = .ranging (movie :: rest) →
      s.cancelled = true → P s .dispatch { s with dispatcher := .closed })
    (rangeSend : ∀ (s : Pipeline F) movie rest, s.dispatcher = .ranging (movie :: rest) →
      s.cancelled = false → P s .dispatch { s with dispatcher := .sending movie rest })
    (hand : ∀ (s : Pipeline F) i movie rest, s.dispatcher = .sending movie rest →
      s.workers[i]? = some .waiting →
      P s (.hand i)
        { s with dispatcher := .ranging rest, workers := s.workers.set i (.calling movie) })
    (seeClosed : ∀ (s : Pipeline F) i, s.dispatcher = .closed →
      s.workers[i]? = some .waiting →
      P s (.seeClosed i) { s with workers := s.workers.set i .exited })
    (called : ∀ (s : Pipeline F) i movie value, s.workers[i]? = some (.calling movie) →
      P s (.called i value)
        { s with workers := s.workers.set i (createEmbeddingsWorker movie value) })
    (recvRes : ∀ (s : Pipeline F) i embedding, s.returned = none →
      s.workers[i]? = some (.sendRes embedding) →
      P s (.recvRes i)
        { s with workers := s.workers.set i .waiting
                 collector := s.collector.onResult fmtF embedding })
    (recvErr : ∀ (s : Pipeline F) i err, s.returned = none →
      s.workers[i]? = some (.sendErr err) →
      P s (.recvErr i)
        { s with workers := s.workers.set i .waiting
                 collector := s.collector.onError err })
    (closeRes : ∀ s : Pipeline F, s.closer = .waiting → s.workers.all Worker.isExited = true →
      P s .close { s with closer := .closedRes })
    (closeErr : ∀ s : Pipeline F, s.closer = .closedRes →
      P s .close { s with closer := .closedBoth })
    (finish : ∀ s : Pipeline F, s.returned = none → s.closer ≠ .waiting →
      P s .finish { s with returned := some s.collector.onClosed }) :
    ∀ (s : Pipeline F) (a : Action F) (s1 : Pipeline F), s.step fmtF a = some s1 → P s a s1 := by
  intro s a s1 h
  cases a with
  | cancel =>
    simp only [Pipeline.step, Option.some.injEq] at h
    subst h
    exact cancel s
  | dispatch =>
    cases hd : s.dispatcher with
    | ranging movies =>
      cases movies with
      | nil =>
        simp only [Pipeline.step, hd, Option.some.injEq] at h
        subst h
        exact rangeEnd s hd
      | cons movie rest =>
        cases hc : s.cancelled with
        | true =>
          simp [Pipeline.step, hd, hc] at h
          subst h
          exact hc ▸ rangeCancelled s movie rest hd hc
        | false =>
          simp [Pipeline.step, hd, hc] at h
          subst h
          exact hc ▸ rangeSend s movie rest hd hc
    | sending movie rest => simp [Pipeline.step, hd] at h
    | closed => simp [Pipeline.step, hd] at h
  | hand i =>
    cases hd : s.dispatcher with
    | sending movie rest =>
      cases hw : s.workers[i]? with
      | none => simp [Pipeline.step, hd, hw] at h
      | some w =>
        cases w <;> simp only [Pipeline.step, hd, hw, Option.some.injEq, reduceCtorEq] at h
        subst h
        exact hand s i movie rest hd hw
    | ranging movies => simp [Pipeline.step, hd] at h
    | closed => simp [Pipeline.step, hd] at h
  | seeClosed i =>
    cases hd : s.dispatcher with
    | closed =>
      cases hw : s.workers[i]? with
      | none => simp [Pipeline.step, hd, hw] at h
      | some w =>
        cases w <;> simp only [Pipeline.step, hd, hw, Option.some.injEq, reduceCtorEq] at h
        subst h
        exact hd ▸ seeClosed s i hd hw
    | ranging movies => simp [Pipeline.step, hd] at h
    | sending movie rest => simp [Pipeline.step, hd] at h
  | called i value =>
    cases hw : s.workers[i]? with
    | none => simp [Pipeline.step, hw] at h
    | some w =>
      cases w <;> simp only [Pipeline.step, hw, Option.some.injEq, reduceCtorEq] at h
      subst h
      exact called s i _ value hw
  | recvRes i =>
    cases hr : s.returned with
    | some r => simp [Pipeline.step, hr] at h
    | none =>
      cases hw : s.workers[i]? with
      | none => simp [Pipeline.step, hr, hw] at h
      | some w =>
        cases w <;> simp only [Pipeline.step, hr, hw, Option.some.injEq, reduceCtorEq] at h
        subst h
        exact hr ▸ recvRes s i _ hr hw
  | recvErr i =>
    cases hr : s.returned with
    | some r => simp [Pipeline.step, hr] at h
    | none =>
      cases hw : s.workers[i]? with
      | none => simp [Pipeline.step, hr, hw] at h
      | some w =>
        cases w <;> simp only [Pipeline.step, hr, hw, Option.some.injEq, reduceCtorEq] at h
        subst h
        exact hr ▸ recvErr s i _ hr hw
  | close =>
    cases hc : s.closer with
    | waiting =>
      by_cases hall : s.workers.all Worker.isExited = true
      · simp only [Pipeline.step, hc, hall, if_true, Option.some.injEq] at h
        subst h
        exact closeRes s hc hall
      · simp [Pipeline.step, hc, hall] at h
    | closedRes =>
      simp only [Pipeline.step, hc, Option.some.injEq] at h
      subst h
      exact closeErr s hc
    | closedBoth => simp [Pipeline.step, hc] at h
  | finish =>
    cases hr : s.returned with
    | some r => simp [Pipeline.step, hr] at h
    | none =>
      cases hc : s.closer with
      | waiting => simp [Pipeline.step, hr, hc] at h
      | closedRes =>
        simp only [Pipeline.step, hr, hc, Option.some.injEq] at h
        subst h
        exact hc ▸ finish s hr (by simp [hc])
      | closedBoth =>
        simp only [Pipeline.step, hr, hc, Option.some.injEq] at h
        subst h
        exact hc ▸ finish s hr (by simp [hc])


theorem sum_map_set (f : Worker F → Nat) :
    ∀ (ws : List (Worker F)) (i : Nat) (w w1 : Worker F), ws[i]? = some w →
      (((ws.map f).set i (f w1))).sum + f w = (ws.map f).sum + f w1 := by
  intro ws
  induction ws with
  | nil => intro i w w1 h; simp at h
  | cons x rest ih =>
    intro i w w1 h
    cases i with
    | zero =>
      simp only [List.getElem?_cons_zero, Option.some.injEq] at h
      subst h
      simp only [List.set_cons_zero, List.map_cons, List.sum_cons]
      omega
    | succ n =>
      simp only [List.getElem?_cons_succ] at h
      have := ih n w w1 h
      simp only [List.set_cons_succ, List.map_cons, List.sum_cons]
      omega

theorem createEmbeddingsWorker_busy (movie : Movie) (value : Except GoError (Embedding F)) :
    (createEmbeddingsWorker movie value).busy = 1 := by
  cases value <;> rfl

theorem createEmbeddingsWorker_weight (movie : Movie) (value : Except GoError (Embedding F)) :
    (createEmbeddingsWorker movie value).weight = 2 := by
  cases value <;> rfl

theorem createEmbeddingsWorker_isExited (movie : Movie)
    (value : Except GoError (Embedding F)) :
    (createEmbeddingsWorker movie value).isExited = false := by
  cases value <;> rfl

/-- Without cancellation, a step keeps the number of movies not yet delivered, except
that a delivery to the collector lowers it by one. -/
theorem Pipeline.step_pending (s : Pipeline F) (a : Action F) (s1 : Pipeline F)
    (h : s.step fmtF a = some s1) :
    s.cancelled = false → a.isCancel = false →
      s1.cancelled = false ∧
      s1.inFlight + s1.dispatcher.todo + (if a.isOutcome = true then 1 else 0)
        = s.inFlight + s.dispatcher.todo := by
  revert s a s1
  apply Pipeline.step_elim
  · intro s _ hc; simp [Action.isCancel] at hc
  · intro s hd hc _
    simp [hc, hd, Pipeline.inFlight, Dispatcher.todo, Action.isOutcome]
  · intro s movie rest _ hcan hc _
    simp [hc] at hcan
  · intro s movie rest hd _ hc _
    simp [hc, hd, Pipeline.inFlight, Dispatcher.todo, Action.isOutcome]
  · intro s i movie rest hd hw hc _
    have := sum_map_set Worker.busy s.workers i _ (.calling movie) hw
    simp only [Worker.busy] at this
    simp [hc, hd, Pipeline.inFlight, Dispatcher.todo, Action.isOutcome, Worker.busy]
    omega
  · intro s i hd hw hc _
    have := sum_map_set Worker.busy s.workers i _ .exited hw
    simp only [Worker.busy] at this
    simp [hc, hd, Pipeline.inFlight, Dispatcher.todo, Action.isOutcome, Worker.busy]
    omega
  · intro s i movie value hw hc _
    have := sum_map_set Worker.busy s.workers i _ (createEmbeddingsWorker movie value) hw
    rw [createEmbeddingsWorker_busy] at this
    simp only [Worker.busy] at this
    simp [hc, Pipeline.inFlight, Action.isOutcome, createEmbeddingsWorker_busy]
    omega
  · intro s i embedding _ hw hc _
    have := sum_map_set Worker.busy s.workers i _ .waiting hw
    simp only [Worker.busy] at this
    simp [hc, Pipeline.inFlight, Action.isOutcome, Worker.busy]
    omega
  · intro s i err _ hw hc _
    have := sum_map_set Worker.busy s.workers i _ .waiting hw
    simp only [Worker.busy] at this
    simp [hc, Pipeline.inFlight, Action.isOutcome, Worker.busy]
    omega
  · intro s _ _ hc _
    simp [hc, Pipeline.inFlight, Action.isOutcome]
  · intro s _ hc _
    simp [hc, Pipeline.inFlight, Action.isOutcome]
  · intro s _ _ hc _
    simp [hc, Pipeline.inFlight, Action.isOutcome]

/-- Every step but a cancellation lowers the weight. -/
theorem Pipeline.step_weight (s : Pipeline F) (a : Action F) (s1 : Pipeline F)
    (h : s.step fmtF a = some s1) :
    s1.weight + (if a.isCancel = true then 0 else 1) ≤ s.weight := by
  revert s a s1
  apply Pipeline.step_elim
  · intro s; simp [Action.isCancel, Pipeline.weight]
  · intro s hd
    simp [hd, Pipeline.weight, Dispatcher.weight, Action.isCancel]
    omega
  · intro s movie rest hd _
    simp [hd, Pipeline.weight, Dispatcher.weight, Action.isCancel]
    omega
  · intro s movie rest hd _
    simp [hd, Pipeline.weight, Dispatcher.weight, Action.isCancel]
    omega
  · intro s i movie rest hd hw
    have := sum_map_set Worker.weight s.workers i _ (.calling movie) hw
    simp only [Worker.weight] at this
    simp [hd, Pipeline.weight, Dispatcher.weight, Action.isCancel, Worker.weight]
    omega
  · intro s i hd hw
    have := sum_map_set Worker.weight s.workers i _ .exited hw
    simp only [Worker.weight] at this
    simp [hd, Pipeline.weight, Dispatcher.weight, Action.isCancel, Worker.weight]
    omega
  · intro s i movie value hw
    have := sum_map_set Worker.weight s.workers i _ (createEmbeddingsWorker movie value) hw
    rw [createEmbeddingsWorker_weight] at this
    simp only [Worker.weight] at this
    simp [Pipeline.weight, Action.isCancel, createEmbeddingsWorker_weight]
    omega
  · intro s i embedding _ hw
    have := sum_map_set Worker.weight s.workers i _ .waiting hw
    simp only [Worker.weight] at this
    simp [Pipeline.weight, Action.isCancel, Worker.weight]
    omega
  · intro s i err _ hw
    have := sum_map_set Worker.weight s.workers i _ .waiting hw
    simp only [Worker.weight] at this
    simp [Pipeline.weight, Action.isCancel, Worker.weight]
    omega
  · intro s hc _
    simp [hc, Pipeline.weight, Closer.weight, Action.isCancel]
    omega
  · intro s hc
    simp [hc, Pipeline.weight, Closer.weight, Action.isCancel]
    omega
  · intro s hr _
    simp [hr, Pipeline.weight, Action.isCancel]


/-- A worker that is in place `i` and has not returned rules out that all have. -/
theorem not_all_exited (ws : List (Worker F)) (i : Nat) (w : Worker F)
    (hw : ws[i]? = some w) (hne : w.isExited = false)
    (hall : ∀ v ∈ ws, v.isExited = true) : False := by
  have := hall w (List.getElem?_mem hw)
  simp [hne] at this

/-- Replacing a worker by one that has not returned adds no returned worker. -/
theorem exited_of_mem_set (ws : List (Worker F)) (i : Nat) (w1 v : Worker F)
    (hne : w1.isExited = false) (hv : v ∈ ws.set i w1) (hex : v.isExited = true) :
    v ∈ ws := by
  rcases List.mem_or_eq_of_mem_set hv with h | h
  · exact h
  · subst h; simp [hne] at hex

/-- Every step keeps the invariant. -/
theorem Pipeline.step_inv (s : Pipeline F) (a : Action F) (s1 : Pipeline F)
    (h : s.step fmtF a = some s1) : s.Inv → s1.Inv := by
  revert s a s1
  apply Pipeline.step_elim
  · intro s hinv; exact hinv
  · rintro s _ ⟨_, h2, h3⟩
    exact ⟨fun _ _ _ => rfl, h2, h3⟩
  · rintro s movie rest _ _ ⟨_, h2, h3⟩
    exact ⟨fun _ _ _ => rfl, h2, h3⟩
  · rintro s movie rest hd _ ⟨h1, h2, h3⟩
    refine ⟨?_, h2, h3⟩
    intro w hw hex
    have := h1 w hw hex
    simp [hd] at this
  · rintro s i movie rest hd hw ⟨h1, h2, h3⟩
    refine ⟨?_, ?_, h3⟩
    · intro v hv hex
      have := h1 v (exited_of_mem_set s.workers i (.calling movie) v rfl hv hex) hex
      simp [hd] at this
    · intro hc
      exact (not_all_exited s.workers i _ hw rfl (h2 hc)).elim
  · rintro s i hd hw ⟨h1, h2, h3⟩
    refine ⟨fun _ _ _ => hd, ?_, h3⟩
    intro hc
    exact (not_all_exited s.workers i _ hw rfl (h2 hc)).elim
  · rintro s i movie value hw ⟨h1, h2, h3⟩
    refine ⟨?_, ?_, h3⟩
    · intro v hv hex
      exact h1 v (exited_of_mem_set s.workers i _ v
        (createEmbeddingsWorker_isExited movie value) hv hex) hex
    · intro hc
      exact (not_all_exited s.workers i _ hw rfl (h2 hc)).elim
  · rintro s i embedding hr hw ⟨h1, h2, h3⟩
    refine ⟨?_, ?_, h3⟩
    · intro v hv hex
      exact h1 v (exited_of_mem_set s.workers i .waiting v rfl hv hex) hex
    · intro hc
      exact (not_all_exited s.workers i _ hw rfl (h2 hc)).elim
  · rintro s i err hr hw ⟨h1, h2, h3⟩
    refine ⟨?_, ?_, h3⟩
    · intro v hv hex
      exact h1 v (exited_of_mem_set s.workers i .waiting v rfl hv hex) hex
    · intro hc
      exact (not_all_exited s.workers i _ hw rfl (h2 hc)).elim
  · rintro s hc hall ⟨h1, h2, h3⟩
    refine ⟨h1, ?_, ?_⟩
    · intro _ w hw
      exact List.all_eq_true.mp hall w hw
    · intro _; simp
  · rintro s hc ⟨h1, h2, h3⟩
    refine ⟨h1, ?_, ?_⟩
    · intro _; exact h2 (by simp [hc])
    · intro _; simp
  · rintro s hr hc ⟨h1, h2, h3⟩
    exact ⟨h1, h2, fun _ => hc⟩

/-- No step changes the number of workers. -/
theorem Pipeline.step_workers_length (s : Pipeline F) (a : Action F) (s1 : Pipeline F)
    (h : s.step fmtF a = some s1) : s1.workers.length = s.workers.length := by
  revert s a s1
  apply Pipeline.step_elim <;> intros <;> simp

/-- Under a context cancelled from the start nothing is ever handed out: a step keeps
the pipeline idle, is neither a hand-over nor a delivery, and leaves the collector's
locals as they are. -/
theorem Pipeline.step_idle (s : Pipeline F) (a : Action F) (s1 : Pipeline F)
    (h : s.step fmtF a = some s1) :
    s.Idle → s1.Idle ∧ a.isHand = false ∧ a.isOutcome = false ∧ s1.collector = s.collector := by
  revert s a s1
  apply Pipeline.step_elim
  · rintro s ⟨h1, h2, h3, h4, h5⟩
    exact ⟨⟨rfl, h2, h3, h4, h5⟩, rfl, rfl, rfl⟩
  · rintro s _ ⟨h1, h2, h3, h4, h5⟩
    exact ⟨⟨h1, by simp, h3, h4, h5⟩, rfl, rfl, rfl⟩
  · rintro s movie rest _ _ ⟨h1, h2, h3, h4, h5⟩
    exact ⟨⟨h1, by simp, h3, h4, h5⟩, rfl, rfl, rfl⟩
  · rintro s movie rest _ hc ⟨h1, h2, h3, h4, h5⟩
    simp [hc] at h1
  · rintro s i movie rest hd _ ⟨h1, h2, h3, h4, h5⟩
    exact (h2 movie rest hd).elim
  · rintro s i hd hw ⟨h1, h2, h3, h4, h5⟩
    refine ⟨⟨h1, by simp [hd], ?_, h4, h5⟩, rfl, rfl, rfl⟩
    intro v hv
    rcases List.mem_or_eq_of_mem_set hv with h | h
    · exact h3 v h
    · subst h; rfl
  · rintro s i movie value hw ⟨h1, h2, h3, h4, h5⟩
    have := h3 _ (List.getElem?_mem hw)
    simp [Worker.busy] at this
  · rintro s i embedding _ hw ⟨h1, h2, h3, h4, h5⟩
    have := h3 _ (List.getElem?_mem hw)
    simp [Worker.busy] at this
  · rintro s i err _ hw ⟨h1, h2, h3, h4, h5⟩
    have := h3 _ (List.getElem?_mem hw)
    simp [Worker.busy] at this
  · rintro s _ _ ⟨h1, h2, h3, h4, h5⟩
    exact ⟨⟨h1, h2, h3, h4, h5⟩, rfl, rfl, rfl⟩
  · rintro s _ ⟨h1, h2, h3, h4, h5⟩
    exact ⟨⟨h1, h2, h3, h4, h5⟩, rfl, rfl, rfl⟩
  · rintro s _ _ ⟨h1, h2, h3, h4, h5⟩
    refine ⟨⟨h1, h2, h3, h4, ?_⟩, rfl, rfl, rfl⟩
    intro r hr
    simp only [Option.some.injEq] at hr
    subst hr
    simp [Collector.onClosed, h4]

/-- A pipeline that has workers, satisfies the invariant and whose collector has not
returned can take a step other than a cancellation: there is no deadlock. -/
theorem Pipeline.progress (s : Pipeline F) (hinv : s.Inv) (hne : s.workers ≠ [])
    (hr : s.returned = none) :
    ∃ a : Action F, a.isCancel = false ∧ (s.step fmtF a).isSome = true := by
  obtain ⟨h1, h2, h3⟩ := hinv
  by_cases hbusy : ∃ w ∈ s.workers, w.busy = 1
  · obtain ⟨w, hw, hb⟩ := hbusy
    obtain ⟨i, hi⟩ := List.mem_iff_getElem?.mp hw
    cases w with
    | waiting => simp [Worker.busy] at hb
    | exited => simp [Worker.busy] at hb
    | calling movie =>
      exact ⟨.called i (.error { msg := "" }), rfl, by simp [Pipeline.step, hi]⟩
    | sendErr err => exact ⟨.recvErr i, rfl, by simp [Pipeline.step, hi, hr]⟩
    | sendRes embedding => exact ⟨.recvRes i, rfl, by simp [Pipeline.step, hi, hr]⟩
  · have hrest : ∀ w ∈ s.workers, w = .waiting ∨ w = .exited := by
      intro w hw
      cases w with
      | waiting => exact Or.inl rfl
      | exited => exact Or.inr rfl
      | calling movie => exact (hbusy ⟨_, hw, rfl⟩).elim
      | sendErr err => exact (hbusy ⟨_, hw, rfl⟩).elim
      | sendRes embedding => exact (hbusy ⟨_, hw, rfl⟩).elim
    cases hd : s.dispatcher with
    | ranging movies =>
      refine ⟨.dispatch, rfl, ?_⟩
      cases movies with
      | nil => simp [Pipeline.step, hd]
      | cons movie rest => cases hc : s.cancelled <;> simp [Pipeline.step, hd, hc]
    | sending movie rest =>
      cases hws : s.workers with
      | nil => exact (hne hws).elim
      | cons w0 ws =>
        have hmem : w0 ∈ s.workers := by simp [hws]
        rcases hrest w0 hmem with h0 | h0
        · subst h0
          exact ⟨.hand 0, rfl, by simp [Pipeline.step, hd, hws]⟩
        · subst h0
          have := h1 _ hmem rfl
          simp [hd] at this
    | closed =>
      by_cases hwait : ∃ i : Nat, s.workers[i]? = some Worker.waiting
      · obtain ⟨i, hi⟩ := hwait
        exact ⟨.seeClosed i, rfl, by simp [Pipeline.step, hd, hi]⟩
      · have hall : s.workers.all Worker.isExited = true := by
          rw [List.all_eq_true]
          intro w hw
          rcases hrest w hw with h0 | h0
          · subst h0
            exact (hwait (List.mem_iff_getElem?.mp hw)).elim
          · subst h0; rfl
        cases hc : s.closer with
        | waiting => exact ⟨.close, rfl, by simp [Pipeline.step, hc, hall]⟩
        | closedRes => exact ⟨.finish, rfl, by simp [Pipeline.step, hc, hr]⟩
        | closedBoth => exact ⟨.finish, rfl, by simp [Pipeline.step, hc, hr]⟩

/-! ## Theorems: runs of the pipeline -/

theorem Pipeline.run_cons (s s1 : Pipeline F) (a : Action F) (rest : List (Action F))
    (h : s.run fmtF (a :: rest) = some s1) :
    ∃ s2, s.step fmtF a = some s2 ∧ s2.run fmtF rest = some s1 := by
  cases hs : s.step fmtF a with
  | none => simp [Pipeline.run, hs] at h
  | some s2 => exact ⟨s2, rfl, by simpa [Pipeline.run, hs] using h⟩

theorem Pipeline.run_inv (acts : List (Action F)) :
    ∀ s s1 : Pipeline F, s.run fmtF acts = some s1 → s.Inv → s1.Inv := by
  induction acts with
  | nil =>
    intro s s1 h hinv
    simp only [Pipeline.run, Option.some.injEq] at h
    exact h ▸ hinv
  | cons a rest ih =>
    intro s s1 h hinv
    obtain ⟨s2, hstep, hrun⟩ := Pipeline.run_cons fmtF s s1 a rest h
    exact ih s2 s1 hrun (Pipeline.step_inv fmtF s a s2 hstep hinv)

theorem Pipeline.run_workers_length (acts : List (Action F)) :
    ∀ s s1 : Pipeline F, s.run fmtF acts = some s1 →
      s1.workers.length = s.workers.length := by
  induction acts with
  | nil =>
    intro s s1 h
    simp only [Pipeline.run, Option.some.injEq] at h
    rw [h]
  | cons a rest ih =>
    intro s s1 h
    obtain ⟨s2, hstep, hrun⟩ := Pipeline.run_cons fmtF s s1 a rest h
    rw [ih s2 s1 hrun, Pipeline.step_workers_length fmtF s a s2 hstep]

theorem Pipeline.run_pending (acts : List (Action F)) :
    ∀ s s1 : Pipeline F, s.run fmtF acts = some s1 → s.cancelled = false →
      (∀ a ∈ acts, a.isCancel = false) →
      s1.inFlight + s1.dispatcher.todo + acts.countP Action.isOutcome
        = s.inFlight + s.dispatcher.todo := by
  induction acts with
  | nil =>
    intro s s1 h _ _
    simp only [Pipeline.run, Option.some.injEq] at h
    subst h
    simp
  | cons a rest ih =>
    intro s s1 h hc hnc
    obtain ⟨s2, hstep, hrun⟩ := Pipeline.run_cons fmtF s s1 a rest h
    obtain ⟨hc2, hcount⟩ :=
      Pipeline.step_pending fmtF s a s2 hstep hc (hnc a (by simp))
    have := ih s2 s1 hrun hc2 (fun b hb => hnc b (by simp [hb]))
    rw [List.countP_cons]
    omega

theorem Pipeline.run_weight (acts : List (Action F)) :
    ∀ s s1 : Pipeline F, s.run fmtF acts = some s1 →
      s1.weight + acts.countP (fun a => !a.isCancel) ≤ s.weight := by
  induction acts with
  | nil =>
    intro s s1 h
    simp only [Pipeline.run, Option.some.injEq] at h
    subst h
    simp
  | cons a rest ih =>
    intro s s1 h
    obtain ⟨s2, hstep, hrun⟩ := Pipeline.run_cons fmtF s s1 a rest h
    have h1 := Pipeline.step_weight fmtF s a s2 hstep
    have h2 := ih s2 s1 hrun
    rw [List.countP_cons]
    cases hca : a.isCancel <;> simp [hca] at h1 ⊢ <;> omega

theorem Pipeline.run_idle (acts : List (Action F)) :
    ∀ s s1 : Pipeline F, s.run fmtF acts = some s1 → s.Idle →
      s1.Idle ∧ acts.countP Action.isHand = 0 ∧ acts.countP Action.isOutcome = 0 ∧
      s1.collector = s.collector := by
  induction acts with
  | nil =>
    intro s s1 h hidle
    simp only [Pipeline.run, Option.some.injEq] at h
    subst h
    simp [hidle]
  | cons a rest ih =>
    intro s s1 h hidle
    obtain ⟨s2, hstep, hrun⟩ := Pipeline.run_cons fmtF s s1 a rest h
    obtain ⟨hidle2, hh, ho, hcoll⟩ := Pipeline.step_idle fmtF s a s2 hstep hidle
    obtain ⟨hidle1, hh1, ho1, hcoll1⟩ := ih s2 s1 hrun hidle2
    refine ⟨hidle1, ?_, ?_, hcoll1.trans hcoll⟩
    · rw [List.countP_cons, hh1, hh]; rfl
    · rw [List.countP_cons, ho1, ho]; rfl

theorem countP_outcome_split (acts : List (Action F)) :
    acts.countP Action.isSuccess + acts.countP Action.isFailure
      = acts.countP Action.isOutcome := by
  induction acts with
  | nil => rfl
  | cons a rest ih =>
    simp only [List.countP_cons]
    cases a <;> simp [Action.isSuccess, Action.isFailure, Action.isOutcome] <;> omega

/-! ## Theorems: the pipeline right after `createEmbeddingsWorkers` -/

section Start

variable (cancelled : Bool) (embedder : Service) (movies : List Movie) (collector : Collector)

theorem createEmbeddingsWorkers_inv :
    (createEmbeddingsWorkers cancelled embedder movies collector : Pipeline F).Inv := by
  refine ⟨?_, ?_, ?_⟩
  · intro w hw hex
    simp only [createEmbeddingsWorkers, List.mem_replicate] at hw
    rw [hw.2] at hex
    simp [Worker.isExited] at hex
  · intro h; simp [createEmbeddingsWorkers] at h
  · intro h; simp [createEmbeddingsWorkers] at h

theorem createEmbeddingsWorkers_inFlight :
    (createEmbeddingsWorkers cancelled embedder movies collector : Pipeline F).inFlight = 0 := by
  simp [createEmbeddingsWorkers, Pipeline.inFlight, Worker.busy]

theorem createEmbeddingsWorkers_weight :
    (createEmbeddingsWorkers cancelled embedder movies collector : Pipeline F).weight
      = 4 * movies.length + embedder.Workers.toNat + 4 := by
  simp [createEmbeddingsWorkers, Pipeline.weight, Dispatcher.weight, Worker.weight,
    Closer.weight]
  omega

theorem createEmbeddingsWorkers_idle (h : collector.errors = []) :
    (createEmbeddingsWorkers true embedder movies collector : Pipeline F).Idle := by
  refine ⟨rfl, ?_, ?_, h, ?_⟩
  · intro movie rest; simp [createEmbeddingsWorkers]
  · intro w hw
    simp only [createEmbeddingsWorkers, List.mem_replicate] at hw
    rw [hw.2]; rfl
  · intro r hr; simp [createEmbeddingsWorkers] at hr

end Start

end Steps

/-! ## Theorems: the worker pool -/

/-- C3: for every list of movies and every worker count of at least one, along every
interleaving without cancellation of the goroutines built by `createEmbeddingsWorkers`:
once `resChan` is closed the collector has received exactly one outcome per movie, so
successes plus failures equal the number of movies; never more outcomes than movies are
delivered; the run takes at most `4 * N + Workers + 4` steps; while the collector has
not returned some goroutine can move; and the collector returns only after the close. -/
theorem createEmbeddingsWorkers_delivers_all {F : Type} (fmtF : F → String)
    (embedder : Service) (movies : List Movie) (collector : Collector)
    (hworkers : 1 ≤ embedder.Workers)
    (acts : List (Action F)) (s : Pipeline F)
    (hnocancel : ∀ a ∈ acts, a.isCancel = false)
    (hrun : (createEmbeddingsWorkers false embedder movies collector).run fmtF acts = some s) :
    (s.closer ≠ .waiting →
      acts.countP Action.isOutcome = movies.length ∧
      acts.countP Action.isSuccess + acts.countP Action.isFailure = movies.length) ∧
    acts.countP Action.isOutcome ≤ movies.length ∧
    acts.length ≤ 4 * movies.length + embedder.Workers.toNat + 4 ∧
    (s.returned = none → ∃ a : Action F, a.isCancel = false ∧ (s.step fmtF a).isSome = true) ∧
    (s.returned ≠ none → s.closer ≠ .waiting) := by
  have hinv := Pipeline.run_inv fmtF acts _ s hrun
    (createEmbeddingsWorkers_inv false embedder movies collector)
  have hlen := Pipeline.run_workers_length fmtF acts _ s hrun
  have hpend := Pipeline.run_pending fmtF acts _ s hrun rfl hnocancel
  have hweight := Pipeline.run_weight fmtF acts _ s hrun
  rw [createEmbeddingsWorkers_inFlight] at hpend
  rw [createEmbeddingsWorkers_weight] at hweight
  have hne : s.workers ≠ [] := by
    intro h0
    rw [h0] at hlen
    simp [createEmbeddingsWorkers] at hlen
    omega
  have htodo : (createEmbeddingsWorkers false embedder movies collector :
      Pipeline F).dispatcher.todo = movies.length := rfl
  rw [htodo] at hpend
  refine ⟨?_, by omega, ?_, ?_, hinv.2.2⟩
  · intro hclosed
    have hall := hinv.2.1 hclosed
    have hfl : s.inFlight = 0 := by
      unfold Pipeline.inFlight
      apply List.sum_eq_zero
      intro n hn
      obtain ⟨w, hw, rfl⟩ := List.mem_map.mp hn
      have := hall w hw
      cases w <;> simp [Worker.isExited] at this
      rfl
    have hdisp : s.dispatcher = .closed := by
      cases hws : s.workers with
      | nil => exact (hne hws).elim
      | cons w0 ws =>
        have hmem : w0 ∈ s.workers := by simp [hws]
        exact hinv.1 w0 hmem (hall w0 hmem)
    rw [hfl, hdisp] at hpend
    simp only [Dispatcher.todo] at hpend
    rw [countP_outcome_split]
    omega
  · have hcount : acts.countP (fun a => !a.isCancel) = acts.length := by
      rw [List.countP_eq_length]
      intro a ha
      simp [hnocancel a ha]
    omega
  · intro hr
    exact Pipeline.progress fmtF s hinv hne hr

theorem createEmbeddingsWorkers_delivers_all_witness :
    (demoEnd.closer ≠ .waiting →
      demoSchedule.countP Action.isOutcome = [movieA, movieB, movieC].length ∧
      demoSchedule.countP Action.isSuccess + demoSchedule.countP Action.isFailure
        = [movieA, movieB, movieC].length) ∧
    demoSchedule.countP Action.isOutcome ≤ [movieA, movieB, movieC].length ∧
    demoSchedule.length ≤ 4 * [movieA, movieB, movieC].length
      + (NewEmbeddings "all-MiniLM-L6-v2" "http://localhost:8000" 1).Workers.toNat + 4 ∧
    (demoEnd.returned = none →
      ∃ a : Action Nat, a.isCancel = false ∧ (demoEnd.step demoFmt a).isSome = true) ∧
    (demoEnd.returned ≠ none → demoEnd.closer ≠ .waiting) :=
  createEmbeddingsWorkers_delivers_all demoFmt
    (NewEmbeddings "all-MiniLM-L6-v2" "http://localhost:8000" 1) [movieA, movieB, movieC]
    headerWritten (by decide) demoSchedule demoEnd (by decide) (by decide)

/-- C10: for every list of movies and every worker count of at least one, when the
context is cancelled before dispatch starts (and the header row was written),
`fetchEmbeddingsForMovies` enters its collector loop and, along every interleaving: no
movie is handed to a worker, no outcome is delivered on `resChan` or `errChan`, the
artifact holds the header row only and no error is gathered; when the collector returns
it returns nil and `jobChan` is closed; the run takes at most `4 * N + Workers + 4`
steps besides cancellations, and while the collector has not returned some goroutine
can move. -/
theorem fetchEmbeddingsForMovies_cancelled {F : Type} (fmtF : F → String)
    (embedder : Service) (movies : List Movie) (faults : List (Option GoError))
    (hworkers : 1 ≤ embedder.Workers)
    (hheader : (Writer.Write { written := [], faults := faults } "movie_id,embedding\n").2
      = none) :
    ∃ s0 : Pipeline F,
      fetchEmbeddingsForMovies (.ok faults) true embedder movies = .running s0 ∧
      ∀ (acts : List (Action F)) (s : Pipeline F), s0.run fmtF acts = some s →
        acts.countP Action.isHand = 0 ∧
        acts.countP Action.isOutcome = 0 ∧
        s.collector.file.written = ["movie_id,embedding\n"] ∧
        s.collector.errors = [] ∧
        (∀ r, s.returned = some r → r = none ∧ s.dispatcher = .closed) ∧
        acts.countP (fun a => !a.isCancel) ≤ 4 * movies.length + embedder.Workers.toNat + 4 ∧
        (s.returned = none →
          ∃ a : Action F, a.isCancel = false ∧ (s.step fmtF a).isSome = true) := by
  have key : ∀ file1 : Writer, file1.written = ["movie_id,embedding\n"] →
      Writer.Write { written := [], faults := faults } "movie_id,embedding\n" = (file1, none) →
      ∃ s0 : Pipeline F,
        fetchEmbeddingsForMovies (.ok faults) true embedder movies = .running s0 ∧
        s0 = createEmbeddingsWorkers true embedder movies { file := file1, errors := [] } := by
    intro file1 _ hw
    exact ⟨_, by simp [fetchEmbeddingsForMovies, hw], rfl⟩
  have hstart : ∃ (file1 : Writer) (s0 : Pipeline F),
      file1.written = ["movie_id,embedding\n"] ∧
      fetchEmbeddingsForMovies (.ok faults) true embedder movies = .running s0 ∧
      s0 = createEmbeddingsWorkers true embedder movies { file := file1, errors := [] } := by
    cases faults with
    | nil =>
      obtain ⟨s0, h1, h2⟩ := key _ rfl rfl
      exact ⟨_, s0, rfl, h1, h2⟩
    | cons f rest =>
      cases f with
      | none =>
        obtain ⟨s0, h1, h2⟩ := key _ rfl rfl
        exact ⟨_, s0, rfl, h1, h2⟩
      | some err => simp [Writer.Write] at hheader
  obtain ⟨file1, s0, hfile, hfetch, hs0⟩ := hstart
  refine ⟨s0, hfetch, ?_⟩
  intro acts s hrun
  subst hs0
  have hinv := Pipeline.run_inv fmtF acts _ s hrun
    (createEmbeddingsWorkers_inv true embedder movies _)
  have hlen := Pipeline.run_workers_length fmtF acts _ s hrun
  have hweight := Pipeline.run_weight fmtF acts _ s hrun
  rw [createEmbeddingsWorkers_weight] at hweight
  obtain ⟨hidle, hhand, hout, hcoll⟩ := Pipeline.run_idle fmtF acts _ s hrun
    (createEmbeddingsWorkers_idle embedder movies _ rfl)
  have hne : s.workers ≠ [] := by
    intro h0
    rw [h0] at hlen
    simp [createEmbeddingsWorkers] at hlen
    omega
  refine ⟨hhand, hout, ?_, hidle.2.2.2.1, ?_, by omega, ?_⟩
  · rw [hcoll]; exact hfile
  · intro r hr
    refine ⟨hidle.2.2.2.2 r hr, ?_⟩
    have hall := hinv.2.1 (hinv.2.2 (by simp [hr]))
    cases hws : s.workers with
    | nil => exact (hne hws).elim
    | cons w0 ws =>
      have hmem : w0 ∈ s.workers := by simp [hws]
      exact hinv.1 w0 hmem (hall w0 hmem)
  · intro hr
    exact Pipeline.progress fmtF s hinv hne hr

theorem fetchEmbeddingsForMovies_cancelled_witness :
    cancelledSchedule.countP Action.isHand = 0 ∧
    cancelledSchedule.countP Action.isOutcome = 0 ∧
    cancelledEnd.collector.file.written = ["movie_id,embedding\n"] ∧
    cancelledEnd.collector.errors = [] ∧
    (∀ r, cancelledEnd.returned = some r → r = none ∧ cancelledEnd.dispatcher = .closed) ∧
    cancelledSchedule.countP (fun a => !a.isCancel) ≤ 4 * [movieA, movieB, movieC].length
      + (NewEmbeddings "all-MiniLM-L6-v2" "http://localhost:8000" 2).Workers.toNat + 4 ∧
    (cancelledEnd.returned = none →
      ∃ a : Action Nat, a.isCancel = false ∧ (cancelledEnd.step demoFmt a).isSome = true) := by
  obtain ⟨s0, h0, hall⟩ := fetchEmbeddingsForMovies_cancelled demoFmt
    (NewEmbeddings "all-MiniLM-L6-v2" "http://localhost:8000" 2) [movieA, movieB, movieC] []
    (by decide) rfl
  have hs0 : FetchStart.running s0 = FetchStart.running cancelledStart := h0.symm.trans rfl
  injection hs0 with hs0
  subst hs0
  exact hall cancelledSchedule cancelledEnd (by decide)

/-! ## Theorems: the collector inside the pipeline -/

/-- A step adds to the collector's locals exactly what it delivers, and a collector that
has returned has returned `onClosed` of its locals. -/
theorem Pipeline.step_collector {F : Type} (fmtF : F → String) (s : Pipeline F)
    (a : Action F) (s1 : Pipeline F) (h : s.step fmtF a = some s1) :
    s1.collector = s.collector.drain fmtF (s.delivery a).toList ∧
    ((∀ r, s.returned = some r → r = s.collector.onClosed) →
      ∀ r, s1.returned = some r → r = s1.collector.onClosed) := by
  revert s a s1
  apply Pipeline.step_elim
  · intro s; exact ⟨rfl, fun h => h⟩
  · intro s _; exact ⟨rfl, fun h => h⟩
  · intro s _ _ _ _; exact ⟨rfl, fun h => h⟩
  · intro s _ _ _ _; exact ⟨rfl, fun h => h⟩
  · intro s _ _ _ _ _; exact ⟨rfl, fun h => h⟩
  · intro s _ _ _; exact ⟨rfl, fun h => h⟩
  · intro s _ _ _ _; exact ⟨rfl, fun h => h⟩
  · intro s i embedding hr hw
    refine ⟨by simp [Pipeline.delivery, hw, Collector.drain, Collector.receive], ?_⟩
    intro _ r hr1
    simp [hr] at hr1
  · intro s i err hr hw
    refine ⟨by simp [Pipeline.delivery, hw, Collector.drain, Collector.receive], ?_⟩
    intro _ r hr1
    simp [hr] at hr1
  · intro s _ _; exact ⟨rfl, fun h => h⟩
  · intro s _; exact ⟨rfl, fun h => h⟩
  · intro s _ _
    refine ⟨rfl, ?_⟩
    intro _ r hr1
    simp only [Option.some.injEq] at hr1
    exact hr1.symm

/-- Along every run the collector's locals are the sequential collector loop applied to
the values received, and the value returned is `onClosed` of them. -/
theorem Pipeline.run_collector {F : Type} (fmtF : F → String) (acts : List (Action F)) :
    ∀ s s1 : Pipeline F, s.run fmtF acts = some s1 →
      s1.collector = s.collector.drain fmtF (s.received fmtF acts) ∧
      ((∀ r, s.returned = some r → r = s.collector.onClosed) →
        ∀ r, s1.returned = some r → r = s1.collector.onClosed) := by
  induction acts with
  | nil =>
    intro s s1 h
    simp only [Pipeline.run, Option.some.injEq] at h
    subst h
    exact ⟨rfl, fun h => h⟩
  | cons a rest ih =>
    intro s s1 h
    obtain ⟨s2, hstep, hrun⟩ := Pipeline.run_cons fmtF s s1 a rest h
    obtain ⟨hc, hr⟩ := Pipeline.step_collector fmtF s a s2 hstep
    obtain ⟨hc1, hr1⟩ := ih s2 s1 hrun
    refine ⟨?_, fun h0 => hr1 (hr h0)⟩
    rw [hc1, hc]
    simp [Pipeline.received, hstep, Collector.drain, List.foldl_append]

/-- Whatever the interleaving, when `fetchEmbeddingsForMovies` returns from its collector
loop, the error it returns and the artifact it leaves are those of
`fetchEmbeddingsCollected` on the values the collector received. -/
theorem fetchEmbeddingsForMovies_returns_collected {F : Type} (fmtF : F → String)
    (cancelled : Bool) (embedder : Service) (movies : List Movie)
    (faults : List (Option GoError)) (s0 s : Pipeline F) (acts : List (Action F))
    (hstart : fetchEmbeddingsForMovies (.ok faults) cancelled embedder movies = .running s0)
    (hrun : s0.run fmtF acts = some s) (r : Option FetchError) (hret : s.returned = some r) :
    fetchEmbeddingsCollected fmtF (.ok faults) (s0.received fmtF acts)
      = (r, s.collector.file) := by
  obtain ⟨hc, hr⟩ := Pipeline.run_collector fmtF acts s0 s hrun
  cases hw : Writer.Write { written := [], faults := faults } "movie_id,embedding\n" with
  | mk file1 e =>
    cases e with
    | some err => simp [fetchEmbeddingsForMovies, hw] at hstart
    | none =>
      simp only [fetchEmbeddingsForMovies, hw, FetchStart.running.injEq] at hstart
      subst hstart
      have hr0 := hr (by intro r0 h0; simp [createEmbeddingsWorkers] at h0) r hret
      simp only [fetchEmbeddingsCollected, hw]
      rw [hr0, hc]
      rfl

/-! ## Theorems: what a failure carries -/

set_option maxRecDepth 20000 in
/-- C6 (counterexample): three movies, the call for the second one (id "tt0002") times
out. The run ends with an `ErrEmbedding` of exactly one entry, the error of the call;
neither that entry nor the message of the `ErrEmbedding` contains the id of the failed
record. -/
theorem failure_entry_lacks_record_id :
    demoStart.run demoFmt demoSchedule = some demoEnd ∧
    demoEnd.returned = some (some (.embedding { errors := [timeoutErr] })) ∧
    ¬ (movieB.MovieID.toList <:+: timeoutErr.msg.toList) ∧
    ¬ (movieB.MovieID.toList <:+: (ErrEmbedding.Error { errors := [timeoutErr] }).toList) := by
  decide

/-- C6 (amended): for every movie whose embedding call fails with `err`, the worker
sends exactly `err` on `errChan`, the same value whichever movie it was, and goes back
to waiting for a job; the collector appends `err` unchanged to its errors and writes
nothing to the artifact. No record id is attached to the failure. -/
theorem failure_outcome_is_cause {F : Type} (fmtF : F → String) (s : Pipeline F) (i : Nat)
    (movie : Movie) (err : GoError)
    (hcall : s.workers[i]? = some (.calling movie)) (hloop : s.returned = none) :
    (createEmbeddingsWorker movie (.error err) : Worker F) = .sendErr err ∧
    ∃ s1 s2 : Pipeline F,
      s.step fmtF (.called i (.error err)) = some s1 ∧
      s1.workers[i]? = some (.sendErr err) ∧
      s1.step fmtF (.recvErr i) = some s2 ∧
      s2.workers[i]? = some .waiting ∧
      s2.collector.errors = s.collector.errors ++ [err] ∧
      s2.collector.file = s.collector.file := by
  have hi : i < s.workers.length := by
    rcases Nat.lt_or_ge i s.workers.length with h | h
    · exact h
    · rw [List.getElem?_eq_none h] at hcall
      simp at hcall
  refine ⟨rfl, { s with workers := s.workers.set i (.sendErr err) },
    { s with workers := (s.workers.set i (.sendErr err)).set i .waiting
             collector := s.collector.onError err }, ?_, ?_, ?_, ?_, rfl, rfl⟩
  · simp [Pipeline.step, hcall, createEmbeddingsWorker]
  · simp [hi]
  · simp [Pipeline.step, hloop, hi]
  · simp [hi]

theorem failure_outcome_is_cause_witness :
    (createEmbeddingsWorker movieA (.error timeoutErr) : Worker Nat) = .sendErr timeoutErr ∧
    ∃ s1 s2 : Pipeline Nat,
      demoCalling.step demoFmt (.called 0 (.error timeoutErr)) = some s1 ∧
      s1.workers[0]? = some (.sendErr timeoutErr) ∧
      s1.step demoFmt (.recvErr 0) = some s2 ∧
      s2.workers[0]? = some .waiting ∧
      s2.collector.errors = demoCalling.collector.errors ++ [timeoutErr] ∧
      s2.collector.file = demoCalling.collector.file :=
  failure_outcome_is_cause demoFmt demoCalling 0 movieA timeoutErr rfl rfl

/-! ## Theorems: what `readStream` forwards to the sink -/

/-- C11: for every fragment stream whose lines up to position k decode, the line at k
being the first terminal one, with a sink that never fails, `readStream` forwards the
text of each of the fragments 0..k to the sink as a write of its own, in arrival order,
and nothing for any line after k: what the sink has received is what it held before,
the texts of the fragments 0..k in order, and the newline separator as the last write. -/
theorem readStream_forwards_each_fragment (decodeChunk : String → Except GoError Chunk)
    (decodeResponse : String → Except GoError LLMResponse)
    (lines : List String) (chunks : List Chunk) (last : String) (final : Chunk)
    (full : LLMResponse) (rest : List String) (err : Option GoError) (held : Nat)
    (writer : Writer) (hsink : writer.NeverFails)
    (hlines : List.Forall₂ (fun l c => decodeChunk l = .ok c ∧ c.Done = false) lines chunks)
    (hlast : decodeChunk last = .ok final) (hdone : final.Done = true)
    (hfull : decodeResponse last = .ok full) :
    (readStream decodeChunk decodeResponse
        { lines := lines ++ last :: rest, err := err, held := held } writer).2.written
      = writer.written ++ (chunks.map Chunk.Response ++ [final.Response]) ++ ["\n"] := by
  obtain ⟨w1, hw1, hwritten, hloop⟩ :=
    readLoop_terminal decodeChunk decodeResponse last final full rest hlast hdone hfull
      lines chunks hlines writer "" hsink
  obtain ⟨w2, hwr, hwritten2, -⟩ := w1.write_of_neverFails hw1 "\n"
  simp only [readStream, hloop, hwr, hwritten2, hwritten]
  simp

theorem readStream_forwards_each_fragment_witness :
    (readStream demoDecodeChunk demoDecodeResponse
        { lines := [lineThe, lineCat] ++ lineSat :: [lineCat, lineBad], err := none, held := 0 }
        Writer.fresh).2.written
      = Writer.fresh.written
        ++ (List.map Chunk.Response
              [{ Model := "", CreatedAt := "", Response := "The ", Done := false },
               { Model := "", CreatedAt := "", Response := "cat ", Done := false }]
            ++ [(Chunk.mk "" "" "sat." true).Response])
        ++ ["\n"] :=
  readStream_forwards_each_fragment demoDecodeChunk demoDecodeResponse
    [lineThe, lineCat] _ lineSat (Chunk.mk "" "" "sat." true) (responseOf "sat." true 3)
    [lineCat, lineBad] none 0 Writer.fresh Writer.fresh_neverFails
    (.cons ⟨rfl, rfl⟩ (.cons ⟨rfl, rfl⟩ .nil)) rfl rfl rfl

/-! ## Theorems: the URL built by `ollama.call` -/

/-- When the address ends in '/' or the endpoint begins with '/', but not both, or when
neither does, `call` posts to the address and the endpoint joined by exactly one '/'. -/
theorem ollama.call_joins (g : ollama) (data endpoint : String)
    (haddr : g.Address ≠ "") (hend : endpoint ≠ "")
    (hnot : ¬ (g.Address.toList.getLast? = some '/' ∧ endpoint.toList.head? = some '/')) :
    g.call (.ok data) endpoint = .post (joinedURL g.Address endpoint) data := by
  obtain ⟨model, ⟨addr⟩⟩ := g
  obtain ⟨ep⟩ := endpoint
  have haddr1 : addr ≠ [] := by
    intro h; exact haddr (by simp [h])
  have hend1 : ep ≠ [] := by
    intro h; exact hend (by simp [h])
  simp only [String.toList] at hnot
  cases hl : addr.getLast? with
  | none => exact (haddr1 (List.getLast?_eq_none_iff.mp hl)).elim
  | some c =>
    cases ep with
    | nil => exact (hend1 rfl).elim
    | cons d ep1 =>
      by_cases hc : c = '/'
      · subst hc
        have hd : d ≠ '/' := by
          intro hd
          exact hnot ⟨hl, by simp [hd]⟩
        have hsplit := List.dropLast_append_getLast? '/' (by simp [hl] : '/' ∈ addr.getLast?)
        have hurl : joinedURL ⟨addr⟩ ⟨d :: ep1⟩ = (⟨addr⟩ : String) ++ ⟨d :: ep1⟩ := by
          apply String.ext
          simp only [joinedURL, String.toList, dropTrailingSlash, hl, if_true,
            String.data_append]
          have hlead : dropLeadingSlash (d :: ep1) = d :: ep1 := by
            unfold dropLeadingSlash
            split
            · rename_i heq
              simp only [List.cons.injEq] at heq
              exact (hd heq.1).elim
            · rfl
          rw [hlead]
          nth_rewrite 2 [← hsplit]
          simp
        simp [ollama.call, String.toList, hl, hurl]
      · by_cases hd : d = '/'
        · subst hd
          have hurl : joinedURL ⟨addr⟩ ⟨'/' :: ep1⟩ = (⟨addr⟩ : String) ++ ⟨'/' :: ep1⟩ := by
            apply String.ext
            have hne : ¬ (addr.getLast? = some '/') := by
              rw [hl]; simpa using hc
            simp [joinedURL, String.toList, dropTrailingSlash, hne, dropLeadingSlash]
          simp [ollama.call, String.toList, hl, hc, hurl]
        · have hurl : joinedURL ⟨addr⟩ ⟨d :: ep1⟩
              = (⟨addr⟩ : String) ++ "/" ++ ⟨d :: ep1⟩ := by
            apply String.ext
            have hne : ¬ (addr.getLast? = some '/') := by
              rw [hl]; simpa using hc
            have hlead : dropLeadingSlash (d :: ep1) = d :: ep1 := by
              unfold dropLeadingSlash
              split
              · rename_i heq
                simp only [List.cons.injEq] at heq
                exact (hd heq.1).elim
              · rfl
            simp [joinedURL, String.toList, dropTrailingSlash, hne, hlead]
          simp [ollama.call, String.toList, hl, hc, hd, hurl]

/-- When the address ends in '/' and the endpoint begins with '/', `call` posts to their
plain concatenation, which keeps both slashes: it is one character longer than the URL
joined by exactly one '/'. -/
theorem ollama.call_both_slashes (g : ollama) (data endpoint : String)
    (haddr : g.Address.toList.getLast? = some '/')
    (hend : endpoint.toList.head? = some '/') :
    g.call (.ok data) endpoint = .post (g.Address ++ endpoint) data ∧
    (g.Address ++ endpoint).length = (joinedURL g.Address endpoint).length + 1 := by
  obtain ⟨model, ⟨addr⟩⟩ := g
  obtain ⟨ep⟩ := endpoint
  simp only [String.toList] at haddr hend
  refine ⟨by simp [ollama.call, String.toList, haddr], ?_⟩
  cases ep with
  | nil => simp at hend
  | cons d ep1 =>
    have hd : d = '/' := by simpa using hend
    subst hd
    have hne : addr ≠ [] := by
      intro h; simp [h] at haddr
    have hpos : 0 < addr.length := List.length_pos.mpr hne
    have hurl : joinedURL ⟨addr⟩ ⟨'/' :: ep1⟩ = ⟨addr.dropLast ++ '/' :: ep1⟩ := by
      simp only [joinedURL, String.toList, dropTrailingSlash, haddr, if_true,
        dropLeadingSlash]
    rw [hurl]
    show (addr ++ '/' :: ep1).length = (addr.dropLast ++ '/' :: ep1).length + 1
    simp only [List.length_append, List.length_cons, List.length_dropLast]
    omega

/-- With a non-empty address and a non-empty endpoint no index in `call` is out of
range. -/
theorem ollama.call_in_range (g : ollama) (data endpoint : String)
    (haddr : g.Address ≠ "") (hend : endpoint ≠ "") :
    g.call (.ok data) endpoint ≠ .outOfRange := by
  obtain ⟨model, ⟨addr⟩⟩ := g
  obtain ⟨ep⟩ := endpoint
  have haddr1 : addr ≠ [] := by
    intro h; exact haddr (by simp [h])
  have hend1 : ep ≠ [] := by
    intro h; exact hend (by simp [h])
  cases hl : addr.getLast? with
  | none => exact (haddr1 (List.getLast?_eq_none_iff.mp hl)).elim
  | some c =>
    cases ep with
    | nil => exact (hend1 rfl).elim
    | cons d ep1 =>
      by_cases hc : c = '/' <;> by_cases hd : d = '/' <;>
        simp [ollama.call, String.toList, hl, hc, hd]

/-- The address `setupLLM` produces is never empty, so with a non-empty endpoint no index
in `call` is out of range. -/
theorem setupLLM_call_in_range (getenv : String → String) (data endpoint : String)
    (hend : endpoint ≠ "") :
    (setupLLM getenv).Address ≠ "" ∧
    (setupLLM getenv).call (.ok data) endpoint ≠ .outOfRange := by
  have haddr : (setupLLM getenv).Address ≠ "" := by
    simp only [setupLLM, NewOllama]
    split
    · decide
    · assumption
  exact ⟨haddr, ollama.call_in_range (setupLLM getenv) data endpoint haddr hend⟩

/-- C12 (evaluation at the failing input): with LLM_HOST set to
"http://localhost:11434/", `setupLLM` builds a client with that address, and
`GenerateStream`, whose endpoint is "/api/generate", posts to
"http://localhost:11434//api/generate": two slashes at the junction, where the URL joined
by exactly one '/' is "http://localhost:11434/api/generate". -/
theorem GenerateStream_double_slash :
    setupLLM (envHost "http://localhost:11434/") = NewOllama "llama2" "http://localhost:11434/" ∧
    (setupLLM (envHost "http://localhost:11434/")).GenerateStream (.ok "")
      = .post "http://localhost:11434//api/generate" "" ∧
    joinedURL "http://localhost:11434/" "/api/generate"
      = "http://localhost:11434/api/generate" := by
  decide

end KnowledgeGraphRag
